import Mathlib

/-!
# Visitor-log handler (`GoApp/main.go`)

A shallow embedding of the Lambda handler of `GoApp/main.go` together with the
parts of its collaborators that decide its observable behaviour:

* `encoding/json.Unmarshal` into the `VisitorLog` struct (syntax check, string
  unquoting, field matching, `null` handling, type errors),
* `time.Time.Format` for the layout `2006-01-02 15:04:05`,
* `dynamodbattribute.MarshalMap` for a struct of two string fields,
* the storage backend, as the answer it gives to a `PutItem` request.

Go strings are modelled by Lean strings, so request bodies are valid Unicode.
-/

namespace GoApp

/-! ## Go values held in `interface{}` -/

/-- The dynamic values an `interface{}` holds in an event or a response. The
payload of `float64` is the IEEE-754 bit pattern; the handler never looks at it. -/
inductive Any where
  | nil
  | bool (b : Bool)
  | float64 (bits : Nat)
  | int (n : Int)
  | string (s : String)
  | slice (xs : List Any)
  | map (kvs : List (String × Any))
  | stringMap (kvs : List (String × String))

/-- Go `map[string]interface{}`: the value of a key is the first entry for it. -/
abbrev GoMap := List (String × Any)

/-- Go `m[key]` on a `map[string]interface{}`: a missing key gives the nil interface. -/
def GoMap.index (m : GoMap) (key : String) : Any :=
  match m.lookup key with
  | some v => v
  | none => Any.nil

/-- Go `x.(string)` in its two-result form. -/
def Any.assertString : Any → String × Bool
  | Any.string s => (s, true)
  | _ => ("", false)

/-! ## `encoding/json` -/

/-- A parsed JSON text. A number keeps its literal. -/
inductive JSON where
  | null
  | bool (b : Bool)
  | number (lit : String)
  | string (s : String)
  | array (elems : List JSON)
  | object (members : List (String × JSON))

/-- The scanner refuses a text nested deeper than this. -/
def maxNestingDepth : Nat := 10000

/-- JSON white space. -/
def isSpace (c : Char) : Bool :=
  c == ' ' || c == '\t' || c == '\r' || c == '\n'

/-- Drop leading white space. -/
def skipSpace : List Char → List Char
  | [] => []
  | c :: cs => if isSpace c then skipSpace cs else c :: cs

/-- Value of a hexadecimal digit. -/
def hexVal (c : Char) : Option Nat :=
  if '0' ≤ c ∧ c ≤ '9' then some (c.toNat - 48)
  else if 'a' ≤ c ∧ c ≤ 'f' then some (c.toNat - 87)
  else if 'A' ≤ c ∧ c ≤ 'F' then some (c.toNat - 55)
  else none

/-- The number written by four hexadecimal digits. -/
def hex4 (a b c d : Char) : Option Nat :=
  match hexVal a, hexVal b, hexVal c, hexVal d with
  | some x, some y, some z, some w => some (((x * 16 + y) * 16 + z) * 16 + w)
  | _, _, _, _ => none

/-- Go `getu4`: the code unit of a leading `\uXXXX`, if the text starts with one. -/
def getu4 : List Char → Option Nat
  | '\\' :: 'u' :: a :: b :: c :: d :: _ => hex4 a b c d
  | _ => none

/-- Go `utf16.IsSurrogate`. -/
def isSurrogate (r : Nat) : Bool := 0xd800 ≤ r && r < 0xe000

/-- The Unicode replacement character U+FFFD. -/
def replacementChar : Char := Char.ofNat 0xfffd

/-- Go `utf16.DecodeRune`: the code point of a surrogate pair, U+FFFD for anything else. -/
def decodeRune (r1 r2 : Nat) : Char :=
  if 0xd800 ≤ r1 ∧ r1 < 0xdc00 ∧ 0xdc00 ≤ r2 ∧ r2 < 0xe000 then
    Char.ofNat ((r1 - 0xd800) * 1024 + (r2 - 0xdc00) + 0x10000)
  else replacementChar

/-- The character a one-letter escape stands for. -/
def simpleEscape (e : Char) : Option Char :=
  if e = '"' then some '"'
  else if e = '\\' then some '\\'
  else if e = '/' then some '/'
  else if e = 'b' then some (Char.ofNat 8)
  else if e = 'f' then some (Char.ofNat 12)
  else if e = 'n' then some '\n'
  else if e = 'r' then some '\r'
  else if e = 't' then some '\t'
  else none

/-- The scanner and `unquote` on an escape, after its backslash: the character
it stands for and the text after it. A `\uXXXX` that is half of a surrogate
pair is read together with the other half if that follows, and stands for
U+FFFD otherwise. -/
def scanEscape : List Char → Option (Char × List Char)
  | [] => none
  | e :: r =>
    if e = 'u' then
      match r with
      | a :: b :: c :: d :: r4 =>
        match hex4 a b c d with
        | none => none
        | some rr =>
          if isSurrogate rr then
            match getu4 r4 with
            | some rr1 =>
              if decodeRune rr rr1 ≠ replacementChar then some (decodeRune rr rr1, r4.drop 6)
              else some (replacementChar, r4)
            | none => some (replacementChar, r4)
          else some (Char.ofNat rr, r4)
      | _ => none
    else
      match simpleEscape e with
      | none => none
      | some x => some (x, r)

/-- The scanner and `unquote` on the inside of a string literal: the text after
the opening quote is read up to the closing quote; the result is the decoded
string and the text after the closing quote. A control character, an unknown
escape or a missing closing quote is a syntax error. -/
def scanString : Nat → List Char → Option (List Char × List Char)
  | 0, _ => none
  | fuel + 1, cs =>
    match cs with
    | [] => none
    | c :: rest =>
      if c = '"' then some ([], rest)
      else if c = '\\' then
        match scanEscape rest with
        | none => none
        | some (x, r) => (scanString fuel r).map (fun p => (x :: p.1, p.2))
      else if c.toNat < 0x20 then none
      else (scanString fuel rest).map (fun p => (c :: p.1, p.2))

/-- The string literal whose opening quote has just been read. One unit of fuel
per character is enough, since every step of `scanString` reads at least one. -/
def stringLiteral (cs : List Char) : Option (List Char × List Char) :=
  scanString (cs.length + 1) cs

/-- Split off the leading decimal digits. -/
def scanDigits : List Char → List Char × List Char
  | [] => ([], [])
  | c :: cs =>
    if c.isDigit then ((scanDigits cs).map (fun ds => c :: ds) id) else ([], c :: cs)

/-- The integer part of a number: `0`, or a non-zero digit followed by digits. -/
def scanInt : List Char → Option (List Char × List Char)
  | [] => none
  | c :: cs =>
    if c = '0' then some (['0'], cs)
    else if c.isDigit then some ((scanDigits cs).map (fun ds => c :: ds) id)
    else none

/-- An optional fraction: a dot followed by at least one digit. -/
def scanFrac : List Char → Option (List Char × List Char)
  | '.' :: cs =>
    match scanDigits cs with
    | ([], _) => none
    | (ds, rest) => some ('.' :: ds, rest)
  | cs => some ([], cs)

/-- An optional exponent: `e` or `E`, an optional sign, at least one digit. -/
def scanExp : List Char → Option (List Char × List Char)
  | [] => some ([], [])
  | c :: cs =>
    if c = 'e' ∨ c = 'E' then
      let signed : List Char × List Char :=
        match cs with
        | s :: r => if s = '+' ∨ s = '-' then ([s], r) else ([], cs)
        | [] => ([], [])
      match scanDigits signed.2 with
      | ([], _) => none
      | (ds, rest) => some (c :: (signed.1 ++ ds), rest)
    else some ([], c :: cs)

/-- A number literal: optional minus, integer part, optional fraction, optional exponent. -/
def scanNumber (cs : List Char) : Option (List Char × List Char) :=
  let signed : List Char × List Char :=
    match cs with
    | '-' :: r => (['-'], r)
    | _ => ([], cs)
  match scanInt signed.2 with
  | none => none
  | some (i, r1) =>
    match scanFrac r1 with
    | none => none
    | some (f, r2) =>
      match scanExp r2 with
      | none => none
      | some (e, r3) => some (signed.1 ++ i ++ f ++ e, r3)

/-- Drop a fixed word from the front of the text. -/
def dropWord : List Char → List Char → Option (List Char)
  | [], cs => some cs
  | _ :: _, [] => none
  | w :: ws, c :: cs => if w = c then dropWord ws cs else none

mutual

/-- One JSON value at the front of the text (no leading white space), at the
given nesting depth; the result is the value and the text after it. -/
def parseValue : Nat → Nat → List Char → Option (JSON × List Char)
  | 0, _, _ => none
  | fuel + 1, depth, cs =>
    match cs with
    | [] => none
    | c :: rest =>
      if c = Char.ofNat 123 then
        if maxNestingDepth ≤ depth then none
        else
          match skipSpace rest with
          | [] => none
          | k :: r =>
            if k = Char.ofNat 125 then some (JSON.object [], r)
            else (parseMembers fuel (depth + 1) (k :: r)).map
              (fun p => (JSON.object p.1, p.2))
      else if c = '[' then
        if maxNestingDepth ≤ depth then none
        else
          match skipSpace rest with
          | [] => none
          | k :: r =>
            if k = ']' then some (JSON.array [], r)
            else (parseElements fuel (depth + 1) (k :: r)).map
              (fun p => (JSON.array p.1, p.2))
      else if c = '"' then
        (stringLiteral rest).map (fun p => (JSON.string (String.mk p.1), p.2))
      else if c = 't' then
        (dropWord ['r', 'u', 'e'] rest).map (fun r => (JSON.bool true, r))
      else if c = 'f' then
        (dropWord ['a', 'l', 's', 'e'] rest).map (fun r => (JSON.bool false, r))
      else if c = 'n' then
        (dropWord ['u', 'l', 'l'] rest).map (fun r => (JSON.null, r))
      else
        (scanNumber (c :: rest)).map (fun p => (JSON.number (String.mk p.1), p.2))

/-- The members of an object from the first key on, up to the closing brace. -/
def parseMembers : Nat → Nat → List Char → Option (List (String × JSON) × List Char)
  | 0, _, _ => none
  | fuel + 1, depth, cs =>
    match cs with
    | [] => none
    | q :: r0 =>
      if q = '"' then
        match stringLiteral r0 with
        | none => none
        | some (k, r1) =>
          match skipSpace r1 with
          | [] => none
          | colon :: r2 =>
            if colon = ':' then
              match parseValue fuel depth (skipSpace r2) with
              | none => none
              | some (v, r3) =>
                match skipSpace r3 with
                | [] => none
                | sep :: r4 =>
                  if sep = ',' then
                    (parseMembers fuel depth (skipSpace r4)).map
                      (fun p => ((String.mk k, v) :: p.1, p.2))
                  else if sep = Char.ofNat 125 then some ([(String.mk k, v)], r4)
                  else none
            else none
      else none

/-- The elements of an array from the first one on, up to the closing bracket. -/
def parseElements : Nat → Nat → List Char → Option (List JSON × List Char)
  | 0, _, _ => none
  | fuel + 1, depth, cs =>
    match parseValue fuel depth cs with
    | none => none
    | some (v, r1) =>
      match skipSpace r1 with
      | [] => none
      | sep :: r2 =>
        if sep = ',' then
          (parseElements fuel depth (skipSpace r2)).map (fun p => (v :: p.1, p.2))
        else if sep = ']' then some ([v], r2)
        else none

end

/-- Go `checkValid` together with the scan of the value: the whole text must be
one JSON value, with optional white space around it. Two nested calls of the
parser consume at least one character, so the fuel given here never runs out
(`parseJSON_fuel`). -/
def parseJSON (data : String) : Option JSON :=
  match parseValue (2 * data.length + 2) 0 (skipSpace data.data) with
  | none => none
  | some (v, rest) =>
    match skipSpace rest with
    | [] => some v
    | _ :: _ => none

/-- The struct of `main.go`: a visitor log entry. -/
structure VisitorLog where
  IP : String
  Timestamp : String
deriving DecidableEq, Repr

/-- The two fields of `VisitorLog`. -/
inductive Field where
  | IP
  | Timestamp
deriving DecidableEq, Repr

/-- The name of a field, from its `json` tag. -/
def Field.name : Field → String
  | Field.IP => "IP"
  | Field.Timestamp => "Timestamp"

/-- Go `foldRune` as far as a comparison with an ASCII name can see it: the
smallest rune of the fold set, which is the upper-case letter for an ASCII
letter, `S` for U+017F and `K` for U+212A. -/
def foldRune (c : Char) : Char :=
  if 'a' ≤ c ∧ c ≤ 'z' then Char.ofNat (c.toNat - 32)
  else if c = Char.ofNat 0x17f then 'S'
  else if c = Char.ofNat 0x212a then 'K'
  else c

/-- Go `foldName`. -/
def foldName (s : String) : String := String.mk (s.data.map foldRune)

/-- The field an object key decodes into: the exact name first, then the
case-folded name. -/
def fieldByName (key : String) : Option Field :=
  if key = Field.name Field.IP then some Field.IP
  else if key = Field.name Field.Timestamp then some Field.Timestamp
  else if foldName key = foldName (Field.name Field.IP) then some Field.IP
  else if foldName key = foldName (Field.name Field.Timestamp) then some Field.Timestamp
  else none

/-- The errors of `json.Unmarshal`. -/
inductive JsonError where
  | syntaxError
  | unmarshalTypeError (value : String) (field : String)
deriving DecidableEq, Repr

/-- What the decoder calls a JSON value in an `UnmarshalTypeError`. -/
def JSON.kind : JSON → String
  | JSON.null => "null"
  | JSON.bool _ => "bool"
  | JSON.number _ => "number"
  | JSON.string _ => "string"
  | JSON.array _ => "array"
  | JSON.object _ => "object"

/-- The decoder's state: the first type error met and the struct being filled. -/
structure DecodeState where
  savedError : Option JsonError
  visitor : VisitorLog
deriving DecidableEq, Repr

/-- Go `saveError`: only the first error is kept. -/
def DecodeState.saveError (d : DecodeState) (e : JsonError) : DecodeState :=
  match d.savedError with
  | none => { d with savedError := some e }
  | some _ => d

/-- Store a string into a field. -/
def VisitorLog.set (v : VisitorLog) : Field → String → VisitorLog
  | Field.IP, s => { v with IP := s }
  | Field.Timestamp, s => { v with Timestamp := s }

/-- Decode one JSON value into a string field, as `literalStore`, `array` and
`object` of `encoding/json` do for a field of kind string: a string is stored,
`null` leaves the field as it is and is no error, anything else is saved as an
`UnmarshalTypeError` and skipped. -/
def decodeField (d : DecodeState) (f : Field) : JSON → DecodeState
  | JSON.string s => { d with visitor := d.visitor.set f s }
  | JSON.null => d
  | v => d.saveError (JsonError.unmarshalTypeError v.kind f.name)

/-- Decode the members of an object in order; a key that names no field is
skipped, and a field no key names keeps its value: no field is required. -/
def decodeMembers (d : DecodeState) : List (String × JSON) → DecodeState
  | [] => d
  | (k, v) :: ms =>
    match fieldByName k with
    | some f => decodeMembers (decodeField d f v) ms
    | none => decodeMembers d ms

/-- Decode a JSON value into the struct: an object member by member, `null`
as a no-op, anything else is an `UnmarshalTypeError`. -/
def decodeValue (d : DecodeState) : JSON → DecodeState
  | JSON.object ms => decodeMembers d ms
  | JSON.null => d
  | v => d.saveError (JsonError.unmarshalTypeError v.kind "")

/-- Go `json.Unmarshal(data, &visitor)`: the error returned and the struct left
behind. A text that is not valid JSON is a `SyntaxError` and leaves the struct
as it was; after a valid text the error is the first type error saved. -/
def Unmarshal (data : String) (visitor : VisitorLog) : Option JsonError × VisitorLog :=
  match parseJSON data with
  | none => (some JsonError.syntaxError, visitor)
  | some v =>
    let d := decodeValue { savedError := none, visitor := visitor } v
    (d.savedError, d.visitor)

/-! ## `time` -/

/-- A clock reading: the Unix time in seconds and the offset (seconds east of
UTC) the location of the reading gives for that instant. -/
structure Time where
  unix : Int
  offset : Int
deriving DecidableEq, Repr

/-- Go `secondsPerMinute`. -/
def secondsPerMinute : Nat := 60

/-- Go `secondsPerHour`. -/
def secondsPerHour : Nat := 60 * secondsPerMinute

/-- Go `secondsPerDay`. -/
def secondsPerDay : Nat := 24 * secondsPerHour

/-- Go `daysPer400Years`. -/
def daysPer400Years : Nat := 365 * 400 + 97

/-- Go `daysPer100Years`. -/
def daysPer100Years : Nat := 365 * 100 + 24

/-- Go `daysPer4Years`. -/
def daysPer4Years : Nat := 365 * 4 + 1

/-- The year of absolute second zero. -/
def absoluteZeroYear : Int := -292277022399

/-- Go `unixToInternal + internalToAbsolute`. -/
def unixToAbsolute : Int := 62135596800 + 9223371966579724800

/-- Go `Time.abs`: seconds since the absolute zero year in the reading's
location, as a `uint64`. -/
def Time.abs (t : Time) : Nat :=
  ((t.unix + t.offset + unixToAbsolute) % (2 ^ 64 : Int)).toNat

/-- Go `isLeap`. The remainders are only compared with zero, where the
truncated remainder of Go and the remainder used here agree. -/
def isLeap (year : Int) : Bool :=
  year % 4 == 0 && (year % 100 != 0 || year % 400 == 0)

/-- Go `daysBefore`: the days of a non-leap year before each month. -/
def daysBefore : List Nat :=
  [0, 31, 59, 90, 120, 151, 181, 212, 243, 273, 304, 334, 365]

/-- Go `absDate`, first half: the year and the day within the year (from 0),
by cutting off the 400-year, 100-year and 4-year cycles and the years of the
last cycle. -/
def absYearDay (abs : Nat) : Int × Nat :=
  let d := abs / secondsPerDay
  let n := d / daysPer400Years
  let y := 400 * n
  let d := d - daysPer400Years * n
  let n := d / daysPer100Years
  let n := n - n / 4
  let y := y + 100 * n
  let d := d - daysPer100Years * n
  let n := d / daysPer4Years
  let y := y + 4 * n
  let d := d - daysPer4Years * n
  let n := d / 365
  let n := n - n / 4
  let y := y + n
  let d := d - 365 * n
  ((y : Int) + absoluteZeroYear, d)

/-- Go `absDate`, second half: month (1 to 12) and day of the month from the
day within the year, given whether the year is a leap year. -/
def monthDay (leap : Bool) (yday : Nat) : Nat × Nat :=
  if leap = true ∧ yday = 31 + 29 - 1 then (2, 29)
  else
    let day := if leap = true ∧ yday > 31 + 29 - 1 then yday - 1 else yday
    let month := day / 31
    let last := daysBefore.getD (month + 1) 0
    if day ≥ last then (month + 1 + 1, day - last + 1)
    else (month + 1, day - daysBefore.getD month 0 + 1)

/-- The calendar date of a clock reading. -/
structure Date where
  year : Int
  month : Nat
  day : Nat
deriving DecidableEq, Repr

/-- Go `absDate(abs, true)`. -/
def absDate (abs : Nat) : Date :=
  let yd := absYearDay abs
  let md := monthDay (isLeap yd.1) yd.2
  { year := yd.1, month := md.1, day := md.2 }

/-- The time of day of a clock reading. -/
structure Clock where
  hour : Nat
  min : Nat
  sec : Nat
deriving DecidableEq, Repr

/-- Go `absClock`. -/
def absClock (abs : Nat) : Clock :=
  let sec := abs % secondsPerDay
  let hour := sec / secondsPerHour
  let sec := sec - hour * secondsPerHour
  let min := sec / secondsPerMinute
  let sec := sec - min * secondsPerMinute
  { hour := hour, min := min, sec := sec }

/-- A decimal digit as a character. -/
def digitChar (k : Nat) : Char := Char.ofNat (48 + k)

/-- Two decimal digits of a number below 100. -/
def twoDigits (u : Nat) : List Char := [digitChar (u / 10), digitChar (u % 10)]

/-- Go `appendInt`: the integer in decimal, zero-padded to the width, after a
minus sign if it is negative. Fields of width 2 and 4 that fit are written
digit by digit. -/
def appendInt (b : List Char) (x : Int) (width : Nat) : List Char :=
  let u := x.natAbs
  let b := if x < 0 then b ++ ['-'] else b
  if width = 2 ∧ u < 100 then b ++ twoDigits u
  else if width = 4 ∧ u < 10000 then b ++ twoDigits (u / 100) ++ twoDigits (u % 100)
  else
    let ds := Nat.toDigits 10 u
    b ++ List.replicate (width - ds.length) '0' ++ ds

/-- The pieces a layout is cut into by `nextStdChunk`. -/
inductive Chunk where
  | text (s : List Char)
  | stdLongYear
  | stdZeroMonth
  | stdZeroDay
  | stdHour
  | stdZeroMinute
  | stdZeroSecond

/-- The layout `2006-01-02 15:04:05` of `main.go`, cut into its pieces. -/
def layout : List Chunk :=
  [Chunk.stdLongYear, Chunk.text ['-'], Chunk.stdZeroMonth, Chunk.text ['-'],
   Chunk.stdZeroDay, Chunk.text [' '], Chunk.stdHour, Chunk.text [':'],
   Chunk.stdZeroMinute, Chunk.text [':'], Chunk.stdZeroSecond]

/-- One step of Go `appendFormat`: the output for one piece of the layout. -/
def appendChunk (date : Date) (clock : Clock) (b : List Char) : Chunk → List Char
  | Chunk.text s => b ++ s
  | Chunk.stdLongYear => appendInt b date.year 4
  | Chunk.stdZeroMonth => appendInt b date.month 2
  | Chunk.stdZeroDay => appendInt b date.day 2
  | Chunk.stdHour => appendInt b clock.hour 2
  | Chunk.stdZeroMinute => appendInt b clock.min 2
  | Chunk.stdZeroSecond => appendInt b clock.sec 2

/-- Go `t.Format("2006-01-02 15:04:05")`, as a list of characters. -/
def formatChars (t : Time) : List Char :=
  layout.foldl (appendChunk (absDate t.abs) (absClock t.abs)) []

/-- Go `t.Format("2006-01-02 15:04:05")`. -/
def Time.Format (t : Time) : String := String.mk (formatChars t)

/-- The values a Go `Time` holds: the Unix seconds are an `int64`, and the
offset of a zone is a 32-bit number of seconds. -/
def Time.wellFormed (t : Time) : Prop :=
  -(2 ^ 63 : Int) ≤ t.unix ∧ t.unix < 2 ^ 63 ∧
    -(2 ^ 31 : Int) ≤ t.offset ∧ t.offset < 2 ^ 31

/-! ## DynamoDB -/

/-- The shapes of `dynamodb.AttributeValue` a scalar field can take. -/
inductive AttributeValue where
  | S (s : String)
  | N (n : String)
  | BOOL (b : Bool)
  | NULL (b : Bool)
deriving DecidableEq, Repr

/-- Go `map[string]*dynamodb.AttributeValue`, in field order. -/
abbrev Item := List (String × AttributeValue)

/-- Go `Encoder.encodeString` of `dynamodbattribute`. `MarshalMap` uses
`NewEncoder()`, which sets `NullEmptyString` to true, and `encodeString`
then writes `NULL: true` for a string of length 0 and `S: s` for any other. -/
def encodeString (s : String) : AttributeValue :=
  if s = "" then AttributeValue.NULL true else AttributeValue.S s

/-- Go `dynamodbattribute.MarshalMap` on a `VisitorLog`: one attribute per
field, named by the `json` tag. For a struct of string fields it returns no error. -/
def MarshalMap (v : VisitorLog) : Except String Item :=
  Except.ok [(Field.name Field.IP, encodeString v.IP),
             (Field.name Field.Timestamp, encodeString v.Timestamp)]

/-- Go `dynamodb.PutItemInput`, with the fields the handler sets. -/
structure PutItemInput where
  TableName : String
  Item : Item
deriving DecidableEq, Repr

/-! ## The handler -/

/-- The client of the storage backend, as the answer the backend gives to a
put: `none` for success, the error otherwise. The output of a put is dropped by
the handler and is left out. -/
structure DynamoDB where
  PutItem : PutItemInput → Option String

/-- What an invocation finds around it: the reading of the clock that
`time.Now()` returns, and the global `dynamoClient`. -/
structure Env where
  now : Time
  dynamoClient : DynamoDB

/-- What an invocation does: the two results of `handler` (`none` for nil),
the `PutItem` calls issued in order, and the format strings of the log lines
written. -/
structure Outcome where
  response : Option GoMap
  err : Option String
  puts : List PutItemInput
  logs : List String

/-- The response of a successful invocation. -/
def successResponse : GoMap :=
  [("statusCode", Any.int 200),
   ("body", Any.string "Visitor log stored successfully"),
   ("headers", Any.stringMap
      [("Access-Control-Allow-Origin", "*"),
       ("Access-Control-Allow-Methods", "GET, POST, OPTIONS"),
       ("Access-Control-Allow-Headers", "Content-Type")])]

/-- The function `handler` of `main.go`: the type assertion on `event["body"]`,
`json.Unmarshal` into a zero `VisitorLog`, the timestamp from the clock,
`MarshalMap`, and one `PutItem` on the table `VisitorLogs`. -/
def handler (env : Env) (event : GoMap) : Outcome :=
  match (event.index "body").assertString with
  | (_, false) =>
    { response := none, err := some "invalid request body", puts := [],
      logs := ["Error: no body found in the event"] }
  | (body, true) =>
    match Unmarshal body { IP := "", Timestamp := "" } with
    | (some _, _) =>
      { response := none, err := some "invalid request body", puts := [],
        logs := ["Error decoding JSON: %v"] }
    | (none, visitor) =>
      let visitor := { visitor with Timestamp := env.now.Format }
      match MarshalMap visitor with
      | Except.error _ =>
        { response := none, err := some "intenal server error", puts := [],
          logs := ["Failed to marshal visitor log: %v"] }
      | Except.ok item =>
        let input : PutItemInput := { TableName := "VisitorLogs", Item := item }
        match env.dynamoClient.PutItem input with
        | some _ =>
          { response := none, err := some "intenal server error", puts := [input],
            logs := ["Failed to put item in DynamoDB: %v"] }
        | none =>
          { response := some successResponse, err := none, puts := [input], logs := [] }

/-! ## JSON texts of requests -/

/-- The hexadecimal digit of a number below 16, in lower case. -/
def hexDigit (k : Nat) : Char :=
  if k < 10 then Char.ofNat (48 + k) else Char.ofNat (87 + k)

/-- One character inside a JSON string literal: the quote and the backslash are
escaped by a backslash, a control character is written `\u00XX`, any other
character stands for itself. -/
def quoteChar (c : Char) : List Char :=
  if c = '"' then ['\\', '"']
  else if c = '\\' then ['\\', '\\']
  else if c.toNat < 0x20 then
    ['\\', 'u', '0', '0', hexDigit (c.toNat / 16), hexDigit (c.toNat % 16)]
  else [c]

/-- The inside of the JSON string literal of a text. -/
def quoteChars : List Char → List Char
  | [] => []
  | c :: cs => quoteChar c ++ quoteChars cs

/-- The JSON text of the object with the single member `IP`, a string. -/
def jsonTextIP (s : String) : String :=
  String.mk ([Char.ofNat 123, '"', 'I', 'P', '"', ':', '"'] ++ quoteChars s.data
    ++ ['"', Char.ofNat 125])

/-! ## Lemmas on the timestamp and the paths of the handler -/

/-- `appendInt` appends to what is already written. -/
theorem appendInt_eq_append (b : List Char) (x : Int) (w : Nat) :
    appendInt b x w = b ++ appendInt [] x w := by
  unfold appendInt
  by_cases hx : x < 0 <;> by_cases h2 : (w = 2 ∧ x.natAbs < 100) <;>
    by_cases h4 : (w = 4 ∧ x.natAbs < 10000) <;> simp [hx, h2, h4]

/-- The timestamp is the six fields of the layout with their separators. -/
theorem formatChars_eq (t : Time) :
    formatChars t =
      appendInt [] (absDate t.abs).year 4 ++
        '-' :: (appendInt [] (absDate t.abs).month 2 ++
          '-' :: (appendInt [] (absDate t.abs).day 2 ++
            ' ' :: (appendInt [] (absClock t.abs).hour 2 ++
              ':' :: (appendInt [] (absClock t.abs).min 2 ++
                ':' :: appendInt [] (absClock t.abs).sec 2)))) := by
  simp only [formatChars, layout, List.foldl, appendChunk]
  rw [appendInt_eq_append _ _ 2]
  rw [appendInt_eq_append _ ((absClock t.abs).min : Int) 2]
  rw [appendInt_eq_append _ ((absClock t.abs).hour : Int) 2]
  rw [appendInt_eq_append _ ((absDate t.abs).day : Int) 2]
  rw [appendInt_eq_append _ ((absDate t.abs).month : Int) 2]
  simp

/-- The timestamp is never the empty string. -/
theorem Format_ne_empty (t : Time) : t.Format ≠ "" := by
  intro h
  have h2 : formatChars t = [] := by
    have := congrArg String.data h
    simpa [Time.Format] using this
  rw [formatChars_eq] at h2
  simp at h2

/-- The timestamp is marshalled as a string attribute. -/
theorem encodeString_Format (t : Time) : encodeString t.Format = AttributeValue.S t.Format := by
  simp [encodeString, Format_ne_empty]

/-- The path of a failed type assertion. -/
theorem handler_not_string (env : Env) (event : GoMap)
    (h : (event.index "body").assertString.2 = false) :
    handler env event =
      { response := none, err := some "invalid request body", puts := [],
        logs := ["Error: no body found in the event"] } := by
  unfold handler
  rcases hx : (event.index "body").assertString with ⟨s, b⟩
  rw [hx] at h
  simp at h
  subst h
  rfl

/-- The path of a decoding error. -/
theorem handler_unmarshal_error (env : Env) (event : GoMap) (body : String)
    (hb : event.index "body" = Any.string body)
    (hu : (Unmarshal body { IP := "", Timestamp := "" }).1 ≠ none) :
    handler env event =
      { response := none, err := some "invalid request body", puts := [],
        logs := ["Error decoding JSON: %v"] } := by
  unfold handler
  rw [hb]
  simp only [Any.assertString]
  rcases hx : Unmarshal body { IP := "", Timestamp := "" } with ⟨e, v⟩
  rw [hx] at hu
  cases e with
  | none => simp at hu
  | some e => rfl

/-- The path of a decoded body: one put, and the result follows its answer. -/
theorem handler_decoded (env : Env) (event : GoMap) (body : String) (v : VisitorLog)
    (hb : event.index "body" = Any.string body)
    (hu : Unmarshal body { IP := "", Timestamp := "" } = (none, v)) :
    handler env event =
      match env.dynamoClient.PutItem (PutItemInput.mk "VisitorLogs"
          [("IP", encodeString v.IP), ("Timestamp", AttributeValue.S env.now.Format)]) with
      | some _ =>
        { response := none, err := some "intenal server error",
          puts := [PutItemInput.mk "VisitorLogs"
            [("IP", encodeString v.IP), ("Timestamp", AttributeValue.S env.now.Format)]],
          logs := ["Failed to put item in DynamoDB: %v"] }
      | none =>
        { response := some successResponse, err := none,
          puts := [PutItemInput.mk "VisitorLogs"
            [("IP", encodeString v.IP), ("Timestamp", AttributeValue.S env.now.Format)]],
          logs := [] } := by
  unfold handler
  rw [hb]
  simp only [Any.assertString, hu, MarshalMap, Field.name, encodeString_Format]

/-! ## The claims on the request paths -/

/-- C1: an event with no `body` key, or whose `body` is not a string, gets a nil
response with the error `invalid request body`, and no `PutItem` call is issued. -/
theorem handler_rejects_missing_body (env : Env) (event : GoMap)
    (h : event.lookup "body" = none ∨
      ∃ v, event.lookup "body" = some v ∧ ∀ s, v ≠ Any.string s) :
    (handler env event).response = none ∧
    (handler env event).err = some "invalid request body" ∧
    (handler env event).puts = [] := by
  have hns : (event.index "body").assertString.2 = false := by
    rcases h with h | ⟨v, hv, hs⟩
    · simp [GoMap.index, h, Any.assertString]
    · simp only [GoMap.index, hv]
      cases v <;> simp [Any.assertString] at hs ⊢
  rw [handler_not_string env event hns]
  exact ⟨rfl, rfl, rfl⟩

/-- The scenario of the specification: the event `{}`. -/
theorem handler_rejects_missing_body_witness :
    ((([] : GoMap).lookup "body" = none ∨
      ∃ v, ([] : GoMap).lookup "body" = some v ∧ ∀ s, v ≠ Any.string s)) ∧
    (handler { now := { unix := 0, offset := 0 },
               dynamoClient := { PutItem := fun _ => none } } []).response = none ∧
    (handler { now := { unix := 0, offset := 0 },
               dynamoClient := { PutItem := fun _ => none } } []).err
      = some "invalid request body" ∧
    (handler { now := { unix := 0, offset := 0 },
               dynamoClient := { PutItem := fun _ => none } } []).puts = [] :=
  ⟨Or.inl rfl, handler_rejects_missing_body _ [] (Or.inl rfl)⟩

/-- Every event is on one of the paths of the handler. -/
theorem event_cases (event : GoMap) :
    (event.index "body").assertString.2 = false ∨
    (∃ body, event.index "body" = Any.string body ∧
      (Unmarshal body { IP := "", Timestamp := "" }).1 ≠ none) ∨
    (∃ body v, event.index "body" = Any.string body ∧
      Unmarshal body { IP := "", Timestamp := "" } = (none, v)) := by
  cases hb : event.index "body" with
  | string body =>
    right
    rcases hu : Unmarshal body { IP := "", Timestamp := "" } with ⟨e, v⟩
    cases e with
    | none => exact Or.inr ⟨body, v, rfl, hu⟩
    | some e => exact Or.inl ⟨body, rfl, by simp [hu]⟩
  | _ => left; rfl

/-- Every put an invocation issues carries the formatted clock reading as its
`Timestamp` attribute. -/
theorem handler_put_timestamp (env : Env) (e : GoMap) (p : PutItemInput)
    (hp : p ∈ (handler env e).puts) :
    p.Item.lookup "Timestamp" = some (AttributeValue.S env.now.Format) := by
  rcases event_cases e with h | ⟨body, hb, hu⟩ | ⟨body, v, hb, hu⟩
  · rw [handler_not_string env e h] at hp
    simp at hp
  · rw [handler_unmarshal_error env e body hb hu] at hp
    simp at hp
  · rw [handler_decoded env e body v hb hu] at hp
    have hl : (PutItemInput.mk "VisitorLogs"
        [("IP", encodeString v.IP), ("Timestamp", AttributeValue.S env.now.Format)]).Item.lookup
          "Timestamp" = some (AttributeValue.S env.now.Format) := by
      simp only [List.lookup]
      have hne : ("Timestamp" == "IP") = false := by decide
      have heq : ("Timestamp" == "Timestamp") = true := by decide
      simp [hne, heq]
    cases hq : env.dynamoClient.PutItem (PutItemInput.mk "VisitorLogs"
        [("IP", encodeString v.IP), ("Timestamp", AttributeValue.S env.now.Format)]) with
    | none =>
      rw [hq] at hp
      simp only [List.mem_singleton] at hp
      rw [hp]; exact hl
    | some x =>
      rw [hq] at hp
      simp only [List.mem_singleton] at hp
      rw [hp]; exact hl

/-- C5: whenever the handler returns a nil error, the response is the fixed map
with the keys `statusCode` = 200, `body` = `Visitor log stored successfully` and
`headers`, the latter with the three CORS entries; it is the same for every
request and every clock reading. -/
theorem handler_success_response (env : Env) (event : GoMap)
    (h : (handler env event).err = none) :
    (handler env event).response = some
      [("statusCode", Any.int 200),
       ("body", Any.string "Visitor log stored successfully"),
       ("headers", Any.stringMap
          [("Access-Control-Allow-Origin", "*"),
           ("Access-Control-Allow-Methods", "GET, POST, OPTIONS"),
           ("Access-Control-Allow-Headers", "Content-Type")])] := by
  rcases event_cases event with h1 | ⟨body, hb, hu⟩ | ⟨body, v, hb, hu⟩
  · rw [handler_not_string env event h1] at h
    simp at h
  · rw [handler_unmarshal_error env event body hb hu] at h
    simp at h
  · rw [handler_decoded env event body v hb hu] at h ⊢
    cases hp : env.dynamoClient.PutItem (PutItemInput.mk "VisitorLogs"
        [("IP", encodeString v.IP), ("Timestamp", AttributeValue.S env.now.Format)]) with
    | none => rfl
    | some e => rw [hp] at h; simp at h

/-- C6: when the body has been decoded and the marshalling or the put fails, the
handler returns a nil response together with the error `intenal server error`. -/
theorem handler_put_failure (env : Env) (event : GoMap) (body : String) (v : VisitorLog)
    (hb : event.index "body" = Any.string body)
    (hu : Unmarshal body { IP := "", Timestamp := "" } = (none, v))
    (hf : (∃ e, MarshalMap { v with Timestamp := env.now.Format } = Except.error e) ∨
      (∃ item e, MarshalMap { v with Timestamp := env.now.Format } = Except.ok item ∧
        env.dynamoClient.PutItem { TableName := "VisitorLogs", Item := item } = some e)) :
    (handler env event).response = none ∧
    (handler env event).err = some "intenal server error" := by
  rw [handler_decoded env event body v hb hu]
  rcases hf with ⟨e, he⟩ | ⟨item, e, hi, he⟩
  · simp [MarshalMap] at he
  · simp only [MarshalMap, Field.name, encodeString_Format, Except.ok.injEq] at hi
    subst hi
    rw [he]
    exact ⟨rfl, rfl⟩

/-- C10: an invocation issues at most one `PutItem` call, exactly one when the
body is extracted, decoded and marshalled, every call names the table
`VisitorLogs` and carries exactly the attributes `IP` and `Timestamp`. -/
theorem handler_puts (env : Env) (event : GoMap) :
    (handler env event).puts.length ≤ 1 ∧
    ((handler env event).puts.length = 1 ↔
      ∃ body v item, event.index "body" = Any.string body ∧
        Unmarshal body { IP := "", Timestamp := "" } = (none, v) ∧
        MarshalMap { v with Timestamp := env.now.Format } = Except.ok item) ∧
    (∀ p ∈ (handler env event).puts,
      p.TableName = "VisitorLogs" ∧ p.Item.map Prod.fst = ["IP", "Timestamp"]) := by
  rcases event_cases event with h1 | ⟨body, hb, hu⟩ | ⟨body, v, hb, hu⟩
  · rw [handler_not_string env event h1]
    refine ⟨by simp, ?_, by simp⟩
    constructor
    · intro h; simp at h
    · rintro ⟨body, v, item, hb, -, -⟩
      rw [hb] at h1
      simp [Any.assertString] at h1
  · rw [handler_unmarshal_error env event body hb hu]
    refine ⟨by simp, ?_, by simp⟩
    constructor
    · intro h; simp at h
    · rintro ⟨body2, v, item, hb2, hu2, -⟩
      rw [hb] at hb2
      cases hb2
      rw [hu2] at hu
      simp at hu
  · rw [handler_decoded env event body v hb hu]
    have hex : ∃ body v item, event.index "body" = Any.string body ∧
        Unmarshal body { IP := "", Timestamp := "" } = (none, v) ∧
        MarshalMap { v with Timestamp := env.now.Format } = Except.ok item :=
      ⟨body, v, _, hb, hu, rfl⟩
    cases env.dynamoClient.PutItem (PutItemInput.mk "VisitorLogs"
        [("IP", encodeString v.IP), ("Timestamp", AttributeValue.S env.now.Format)]) with
    | none => exact ⟨by simp, ⟨fun _ => hex, fun _ => rfl⟩, by simp⟩
    | some e => exact ⟨by simp, ⟨fun _ => hex, fun _ => rfl⟩, by simp⟩

/-- The scenario of the specification: the body `{"IP":"203.0.113.5"}`. -/
theorem handler_success_response_witness :
    (handler { now := { unix := 1793569565, offset := 0 },
               dynamoClient := { PutItem := fun _ => none } }
        [("body", Any.string "\x7b\"IP\":\"203.0.113.5\"\x7d")]).err = none ∧
    (handler { now := { unix := 1793569565, offset := 0 },
               dynamoClient := { PutItem := fun _ => none } }
        [("body", Any.string "\x7b\"IP\":\"203.0.113.5\"\x7d")]).response = some
      [("statusCode", Any.int 200),
       ("body", Any.string "Visitor log stored successfully"),
       ("headers", Any.stringMap
          [("Access-Control-Allow-Origin", "*"),
           ("Access-Control-Allow-Methods", "GET, POST, OPTIONS"),
           ("Access-Control-Allow-Headers", "Content-Type")])] :=
  ⟨by decide, handler_success_response _ _ (by decide)⟩

/-- A backend that refuses every put. -/
theorem handler_put_failure_witness :
    (handler { now := { unix := 1793569565, offset := 0 },
               dynamoClient := { PutItem := fun _ => some "ResourceNotFoundException" } }
        [("body", Any.string "\x7b\"IP\":\"203.0.113.5\"\x7d")]).response = none ∧
    (handler { now := { unix := 1793569565, offset := 0 },
               dynamoClient := { PutItem := fun _ => some "ResourceNotFoundException" } }
        [("body", Any.string "\x7b\"IP\":\"203.0.113.5\"\x7d")]).err
      = some "intenal server error" :=
  handler_put_failure
    { now := { unix := 1793569565, offset := 0 },
      dynamoClient := { PutItem := fun _ => some "ResourceNotFoundException" } }
    [("body", Any.string "\x7b\"IP\":\"203.0.113.5\"\x7d")]
    "\x7b\"IP\":\"203.0.113.5\"\x7d" { IP := "203.0.113.5", Timestamp := "" }
    rfl (by decide) (Or.inr ⟨_, "ResourceNotFoundException", rfl, rfl⟩)

/-! ## Decoding into the struct -/

/-- After `saveError` there is an error. -/
theorem saveError_ne_none (d : DecodeState) (e : JsonError) :
    (d.saveError e).savedError ≠ none := by
  unfold DecodeState.saveError
  cases h : d.savedError <;> simp [h]

/-- Decoding a field does not clear a saved error. -/
theorem decodeField_keeps_error (d : DecodeState) (f : Field) (v : JSON)
    (h : d.savedError ≠ none) : (decodeField d f v).savedError ≠ none := by
  cases v <;> simp [decodeField, h, saveError_ne_none]

/-- Decoding members does not clear a saved error. -/
theorem decodeMembers_keeps_error (ms : List (String × JSON)) :
    ∀ d : DecodeState, d.savedError ≠ none → (decodeMembers d ms).savedError ≠ none := by
  induction ms with
  | nil => intro d h; simpa [decodeMembers] using h
  | cons m ms ih =>
    intro d h
    obtain ⟨k, v⟩ := m
    unfold decodeMembers
    cases hf : fieldByName k with
    | none => exact ih d h
    | some f => exact ih _ (decodeField_keeps_error d f v h)

/-- A value that is neither a string nor `null` is a type error for a field. -/
theorem decodeField_mistyped (d : DecodeState) (f : Field) (v : JSON)
    (hs : ∀ s, v ≠ JSON.string s) (hn : v ≠ JSON.null) :
    (decodeField d f v).savedError ≠ none := by
  cases v with
  | string s => exact absurd rfl (hs s)
  | null => exact absurd rfl hn
  | _ => simp [decodeField, saveError_ne_none]

/-- A member that names a field and holds neither a string nor `null` makes the
decoding of the object end with an error. -/
theorem decodeMembers_mistyped (ms : List (String × JSON)) (k : String) (f : Field) (v : JSON)
    (hm : (k, v) ∈ ms) (hf : fieldByName k = some f)
    (hs : ∀ s, v ≠ JSON.string s) (hn : v ≠ JSON.null) :
    ∀ d : DecodeState, (decodeMembers d ms).savedError ≠ none := by
  induction ms with
  | nil => simp at hm
  | cons m ms ih =>
    intro d
    obtain ⟨k2, v2⟩ := m
    unfold decodeMembers
    rcases List.mem_cons.mp hm with heq | hin
    · cases heq
      rw [hf]
      exact decodeMembers_keeps_error ms _ (decodeField_mistyped d f v hs hn)
    · cases fieldByName k2 with
      | none => exact ih hin d
      | some f2 => exact ih hin _

/-- Members that are strings or `null` wherever they name a field decode without error. -/
theorem decodeMembers_no_error (ms : List (String × JSON))
    (h : ∀ k v, (k, v) ∈ ms → fieldByName k ≠ none →
      (∃ s, v = JSON.string s) ∨ v = JSON.null) :
    ∀ d : DecodeState, (decodeMembers d ms).savedError = d.savedError := by
  induction ms with
  | nil => intro d; rfl
  | cons m ms ih =>
    intro d
    obtain ⟨k, v⟩ := m
    have ih2 := ih (fun k2 v2 hm => h k2 v2 (List.mem_cons_of_mem _ hm))
    unfold decodeMembers
    cases hf : fieldByName k with
    | none => exact ih2 d
    | some f =>
      rw [ih2]
      rcases h k v (List.mem_cons_self _ _) (by simp [hf]) with ⟨s, rfl⟩ | rfl <;>
        simp [decodeField]

/-- Members none of which names the field `IP` leave the field as it was. -/
theorem decodeMembers_IP_untouched (ms : List (String × JSON))
    (h : ∀ k v, (k, v) ∈ ms → fieldByName k ≠ some Field.IP) :
    ∀ d : DecodeState, (decodeMembers d ms).visitor.IP = d.visitor.IP := by
  induction ms with
  | nil => intro d; rfl
  | cons m ms ih =>
    intro d
    obtain ⟨k, v⟩ := m
    have ih2 := ih (fun k2 v2 hm => h k2 v2 (List.mem_cons_of_mem _ hm))
    unfold decodeMembers
    cases hf : fieldByName k with
    | none => exact ih2 d
    | some f =>
      rw [ih2]
      cases f with
      | IP => exact absurd hf (h k v (List.mem_cons_self _ _))
      | Timestamp =>
        cases v <;> simp [decodeField, VisitorLog.set, DecodeState.saveError] <;>
          cases d.savedError <;> rfl

/-! ## The claims on the body -/

/-- C2, the claim as stated fails: the body `{"IP":null}` is a JSON object whose
`IP` member is present and is not a JSON string, yet the handler returns a nil
error and issues a put. -/
theorem null_IP_accepted :
    parseJSON "\x7b\"IP\":null\x7d" = some (JSON.object [("IP", JSON.null)]) ∧
    (handler { now := { unix := 1793569565, offset := 0 },
               dynamoClient := { PutItem := fun _ => none } }
        [("body", Any.string "\x7b\"IP\":null\x7d")]).err = none ∧
    (handler { now := { unix := 1793569565, offset := 0 },
               dynamoClient := { PutItem := fun _ => none } }
        [("body", Any.string "\x7b\"IP\":null\x7d")]).puts =
      [{ TableName := "VisitorLogs",
         Item := [("IP", AttributeValue.NULL true),
                  ("Timestamp", AttributeValue.S "2026-11-01 21:46:05")] }] :=
  ⟨rfl, by decide, by decide⟩

/-- C2, amended: a body that is not valid JSON, or is a JSON object with an `IP`
member that is a number, a boolean, an array or an object, gets a nil response
with the error `invalid request body`, and no `PutItem` call is issued. -/
theorem handler_rejects_bad_body (env : Env) (event : GoMap) (body : String)
    (hb : event.index "body" = Any.string body)
    (h : parseJSON body = none ∨
      ∃ ms v, parseJSON body = some (JSON.object ms) ∧ ("IP", v) ∈ ms ∧
        (∀ s, v ≠ JSON.string s) ∧ v ≠ JSON.null) :
    (handler env event).response = none ∧
    (handler env event).err = some "invalid request body" ∧
    (handler env event).puts = [] := by
  have hu : (Unmarshal body { IP := "", Timestamp := "" }).1 ≠ none := by
    rcases h with h | ⟨ms, v, hp, hm, hs, hn⟩
    · simp [Unmarshal, h]
    · simp only [Unmarshal, hp, decodeValue]
      exact decodeMembers_mistyped ms "IP" Field.IP v hm (by decide) hs hn _
  rw [handler_unmarshal_error env event body hb hu]
  exact ⟨rfl, rfl, rfl⟩

/-- The body `{"IP": 5}`, with a number for `IP`. -/
theorem handler_rejects_bad_body_witness :
    (parseJSON "\x7b\"IP\": 5\x7d" = none ∨
      ∃ ms v, parseJSON "\x7b\"IP\": 5\x7d" = some (JSON.object ms) ∧ ("IP", v) ∈ ms ∧
        (∀ s, v ≠ JSON.string s) ∧ v ≠ JSON.null) ∧
    (handler { now := { unix := 1793569565, offset := 0 },
               dynamoClient := { PutItem := fun _ => none } }
        [("body", Any.string "\x7b\"IP\": 5\x7d")]).response = none ∧
    (handler { now := { unix := 1793569565, offset := 0 },
               dynamoClient := { PutItem := fun _ => none } }
        [("body", Any.string "\x7b\"IP\": 5\x7d")]).err = some "invalid request body" ∧
    (handler { now := { unix := 1793569565, offset := 0 },
               dynamoClient := { PutItem := fun _ => none } }
        [("body", Any.string "\x7b\"IP\": 5\x7d")]).puts = [] :=
  have hw : parseJSON "\x7b\"IP\": 5\x7d" = none ∨
      ∃ ms v, parseJSON "\x7b\"IP\": 5\x7d" = some (JSON.object ms) ∧ ("IP", v) ∈ ms ∧
        (∀ s, v ≠ JSON.string s) ∧ v ≠ JSON.null :=
    Or.inr ⟨[("IP", JSON.number "5")], JSON.number "5", rfl, List.mem_cons_self _ _,
      (fun _ hc => by cases hc), (fun hc => by cases hc)⟩
  ⟨hw, handler_rejects_bad_body _ _ "\x7b\"IP\": 5\x7d" rfl hw⟩

/-- C3, the claim as stated fails: on the body `{}` the handler returns a nil
error and issues a put, with the NULL attribute for the empty `IP`. -/
theorem empty_object_accepted :
    parseJSON "\x7b\x7d" = some (JSON.object []) ∧
    (handler { now := { unix := 1793569565, offset := 0 },
               dynamoClient := { PutItem := fun _ => none } }
        [("body", Any.string "\x7b\x7d")]).err = none ∧
    (handler { now := { unix := 1793569565, offset := 0 },
               dynamoClient := { PutItem := fun _ => none } }
        [("body", Any.string "\x7b\x7d")]).puts =
      [{ TableName := "VisitorLogs",
         Item := [("IP", AttributeValue.NULL true),
                  ("Timestamp", AttributeValue.S "2026-11-01 21:46:05")] }] :=
  ⟨rfl, by decide, by decide⟩

/-- C3, amended: when the body is a JSON object with no member decoding into
`IP`, and its members decoding into a field are strings or `null`, the handler
does not reject the request: it issues one put to `VisitorLogs` whose `IP`
attribute is NULL, and returns the success response when the backend accepts
the put. `IP` is not a required field. -/
theorem handler_accepts_missing_IP (env : Env) (event : GoMap) (body : String)
    (ms : List (String × JSON))
    (hb : event.index "body" = Any.string body)
    (hp : parseJSON body = some (JSON.object ms))
    (hip : ∀ k v, (k, v) ∈ ms → fieldByName k ≠ some Field.IP)
    (hty : ∀ k v, (k, v) ∈ ms → fieldByName k ≠ none →
      (∃ s, v = JSON.string s) ∨ v = JSON.null) :
    (handler env event).puts =
      [{ TableName := "VisitorLogs",
         Item := [("IP", AttributeValue.NULL true),
                  ("Timestamp", AttributeValue.S env.now.Format)] }] ∧
    (handler env event).err ≠ some "invalid request body" ∧
    (env.dynamoClient.PutItem (PutItemInput.mk "VisitorLogs"
        [("IP", AttributeValue.NULL true), ("Timestamp", AttributeValue.S env.now.Format)])
        = none →
      (handler env event).err = none ∧ (handler env event).response = some successResponse) := by
  have hu : Unmarshal body { IP := "", Timestamp := "" } =
      (none, (decodeMembers { savedError := none, visitor := { IP := "", Timestamp := "" } }
        ms).visitor) := by
    simp only [Unmarshal, hp, decodeValue]
    rw [decodeMembers_no_error ms hty]
  rw [handler_decoded env event body _ hb hu, decodeMembers_IP_untouched ms hip]
  have he : encodeString "" = AttributeValue.NULL true := rfl
  simp only [he]
  cases hput : env.dynamoClient.PutItem (PutItemInput.mk "VisitorLogs"
      [("IP", AttributeValue.NULL true), ("Timestamp", AttributeValue.S env.now.Format)]) with
  | none => exact ⟨rfl, by simp, fun _ => ⟨rfl, rfl⟩⟩
  | some e => exact ⟨rfl, by simp, fun hc => by simp at hc⟩

/-- The body `{"ua": "curl"}`, with no `IP`. -/
theorem handler_accepts_missing_IP_witness :
    (handler { now := { unix := 1793569565, offset := 0 },
               dynamoClient := { PutItem := fun _ => none } }
        [("body", Any.string "\x7b\"ua\": \"curl\"\x7d")]).puts =
      [{ TableName := "VisitorLogs",
         Item := [("IP", AttributeValue.NULL true),
                  ("Timestamp", AttributeValue.S
                    (Time.Format { unix := 1793569565, offset := 0 }))] }] ∧
    (handler { now := { unix := 1793569565, offset := 0 },
               dynamoClient := { PutItem := fun _ => none } }
        [("body", Any.string "\x7b\"ua\": \"curl\"\x7d")]).err ≠ some "invalid request body" ∧
    ((fun _ => none : PutItemInput → Option String) (PutItemInput.mk "VisitorLogs"
        [("IP", AttributeValue.NULL true),
         ("Timestamp", AttributeValue.S (Time.Format { unix := 1793569565, offset := 0 }))])
        = none →
      (handler { now := { unix := 1793569565, offset := 0 },
                 dynamoClient := { PutItem := fun _ => none } }
        [("body", Any.string "\x7b\"ua\": \"curl\"\x7d")]).err = none ∧
      (handler { now := { unix := 1793569565, offset := 0 },
                 dynamoClient := { PutItem := fun _ => none } }
        [("body", Any.string "\x7b\"ua\": \"curl\"\x7d")]).response = some successResponse) :=
  handler_accepts_missing_IP
    { now := { unix := 1793569565, offset := 0 }, dynamoClient := { PutItem := fun _ => none } }
    [("body", Any.string "\x7b\"ua\": \"curl\"\x7d")] "\x7b\"ua\": \"curl\"\x7d"
    [("ua", JSON.string "curl")] rfl rfl
    (by
      intro k v hm
      simp only [List.mem_singleton, Prod.mk.injEq] at hm
      rw [hm.1]
      decide)
    (by
      intro k v hm
      simp only [List.mem_singleton, Prod.mk.injEq] at hm
      intro _
      exact Or.inl ⟨"curl", hm.2⟩)

/-! ## Reading back the JSON text of a string -/

/-- The two hexadecimal digits of a control character read back as its code. -/
theorem hex4_hexDigit (n : Nat) (h : n < 32) :
    hex4 '0' '0' (hexDigit (n / 16)) (hexDigit (n % 16)) = some n := by
  have key : ∀ k : Fin 32,
      hex4 '0' '0' (hexDigit (k.val / 16)) (hexDigit (k.val % 16)) = some k.val := by decide
  exact key ⟨n, h⟩

/-- The scanner reads the escaped form of one character back as that character. -/
theorem scanString_quoteChar (c : Char) (rest : List Char) (fuel : Nat) :
    scanString (fuel + 1) (quoteChar c ++ rest) =
      (scanString fuel rest).map (fun p => (c :: p.1, p.2)) := by
  unfold quoteChar
  by_cases h1 : c = '"'
  · subst h1
    simp [scanString, scanEscape, simpleEscape]
  · by_cases h2 : c = '\\'
    · subst h2
      simp [scanString, scanEscape, simpleEscape]
    · by_cases h3 : c.toNat < 0x20
      · have hs : isSurrogate c.toNat = false := by
          simp only [isSurrogate, Bool.and_eq_false_imp, decide_eq_true_eq, decide_eq_false_iff_not]
          omega
        simp only [h1, h2, h3, if_true, if_false, List.cons_append, List.nil_append]
        simp [scanString, scanEscape, hex4_hexDigit c.toNat h3, hs, Char.ofNat_toNat]
      · simp [h1, h2, h3, scanString]

/-- The scanner reads the escaped form of a text back as the text, given fuel
for each of its characters and the closing quote. -/
theorem scanString_quoteChars (s rest : List Char) :
    ∀ fuel, s.length < fuel →
      scanString fuel (quoteChars s ++ '"' :: rest) = some (s, rest) := by
  induction s with
  | nil =>
    intro fuel h
    obtain ⟨f, rfl⟩ : ∃ f, fuel = f + 1 := ⟨fuel - 1, by simp at h; omega⟩
    simp [quoteChars, scanString]
  | cons c cs ih =>
    intro fuel h
    obtain ⟨f, rfl⟩ : ∃ f, fuel = f + 1 := ⟨fuel - 1, by simp at h; omega⟩
    simp only [quoteChars, List.append_assoc]
    rw [scanString_quoteChar, ih f (by simp at h; omega)]
    rfl

/-- A character is escaped by at least one character. -/
theorem quoteChar_length (c : Char) : 1 ≤ (quoteChar c).length := by
  unfold quoteChar
  split_ifs <;> simp

/-- The escaped form of a text is at least as long as the text. -/
theorem quoteChars_length (s : List Char) : s.length ≤ (quoteChars s).length := by
  induction s with
  | nil => simp [quoteChars]
  | cons c cs ih =>
    have := quoteChar_length c
    simp only [quoteChars, List.length_cons, List.length_append]
    omega

/-- The literal of the key `IP`. -/
theorem stringLiteral_key_IP (rest : List Char) :
    stringLiteral ('I' :: 'P' :: '"' :: rest) = some (['I', 'P'], rest) := by
  simp [stringLiteral, scanString]

/-- The string literal of a text reads back as the text. -/
theorem stringLiteral_quoteChars (s rest : List Char) :
    stringLiteral (quoteChars s ++ '"' :: rest) = some (s, rest) := by
  have hlen := quoteChars_length s
  exact scanString_quoteChars s rest _
    (by simp only [List.length_append, List.length_cons]; omega)

/-- The parser on the JSON string literal of a text. -/
theorem parseValue_quoted (fuel depth : Nat) (s rest : List Char) :
    parseValue (fuel + 1) depth ('"' :: (quoteChars s ++ '"' :: rest)) =
      some (JSON.string (String.mk s), rest) := by
  unfold parseValue
  simp [stringLiteral_quoteChars]

/-- The parser on the single member `IP` of an object. -/
theorem parseMembers_IP (fuel depth : Nat) (s rest : List Char) :
    parseMembers (fuel + 2) depth
      ('"' :: 'I' :: 'P' :: '"' :: ':' :: '"' :: (quoteChars s ++ '"' :: Char.ofNat 125 :: rest)) =
      some ([("IP", JSON.string (String.mk s))], rest) := by
  unfold parseMembers
  simp [stringLiteral_key_IP, skipSpace, isSpace, parseValue_quoted]

/-- The JSON text of the object with the member `IP` parses to that object. -/
theorem parseJSON_jsonTextIP (s : String) :
    parseJSON (jsonTextIP s) = some (JSON.object [("IP", JSON.string s)]) := by
  obtain ⟨f, hf⟩ : ∃ f, 2 * (jsonTextIP s).length + 2 = f + 3 :=
    ⟨2 * (jsonTextIP s).length - 1, by
      have : 1 ≤ (jsonTextIP s).length := by simp [jsonTextIP, String.length]
      omega⟩
  unfold parseJSON
  rw [hf]
  have hm := parseMembers_IP f 1 s.data []
  unfold parseValue
  simp only [jsonTextIP, List.cons_append, List.nil_append, List.append_assoc] at hm ⊢
  simp [skipSpace, isSpace, maxNestingDepth, hm]

/-! ## The claims on the stored item -/

/-- Decoding an object with the single member `IP`, a string. -/
theorem Unmarshal_IP (body s : String)
    (h : parseJSON body = some (JSON.object [("IP", JSON.string s)])) :
    Unmarshal body { IP := "", Timestamp := "" } = (none, { IP := s, Timestamp := "" }) := by
  have hf : fieldByName "IP" = some Field.IP := by decide
  simp [Unmarshal, h, decodeValue, decodeMembers, hf, decodeField, VisitorLog.set]

/-- Decoding an object with the members `IP` and `Timestamp`, both strings. -/
theorem Unmarshal_IP_Timestamp (body s t : String)
    (h : parseJSON body =
      some (JSON.object [("IP", JSON.string s), ("Timestamp", JSON.string t)])) :
    Unmarshal body { IP := "", Timestamp := "" } = (none, { IP := s, Timestamp := t }) := by
  have hf : fieldByName "IP" = some Field.IP := by decide
  have ht : fieldByName "Timestamp" = some Field.Timestamp := by decide
  simp [Unmarshal, h, decodeValue, decodeMembers, hf, ht, decodeField, VisitorLog.set]

/-- C4, the claim as stated fails at the empty string: the body `{"IP":""}` is
accepted, and the `IP` attribute of the item put is NULL, not the string. -/
theorem empty_IP_put_as_NULL :
    jsonTextIP "" = "\x7b\"IP\":\"\"\x7d" ∧
    (handler { now := { unix := 1793569565, offset := 0 },
               dynamoClient := { PutItem := fun _ => none } }
        [("body", Any.string (jsonTextIP ""))]).err = none ∧
    (handler { now := { unix := 1793569565, offset := 0 },
               dynamoClient := { PutItem := fun _ => none } }
        [("body", Any.string (jsonTextIP ""))]).puts.map (fun p => p.Item.lookup "IP") =
      [some (AttributeValue.NULL true)] ∧
    AttributeValue.NULL true ≠ AttributeValue.S "" :=
  ⟨by decide, by decide, by decide, by decide⟩

/-- C4, amended: for every text `s`, the JSON text of the object with the member
`IP` = `s` parses to that object, and when the body is a JSON text of that
object and the backend accepts the put, the handler returns a nil error and
issues one put whose `IP` attribute is the string `s` unchanged when `s` is not
empty, and the NULL attribute when `s` is empty. -/
theorem handler_stores_IP (env : Env) (s : String) :
    parseJSON (jsonTextIP s) = some (JSON.object [("IP", JSON.string s)]) ∧
    ∀ (event : GoMap) (body : String),
      event.index "body" = Any.string body →
      parseJSON body = some (JSON.object [("IP", JSON.string s)]) →
      env.dynamoClient.PutItem (PutItemInput.mk "VisitorLogs"
        [("IP", if s = "" then AttributeValue.NULL true else AttributeValue.S s),
         ("Timestamp", AttributeValue.S env.now.Format)]) = none →
      (handler env event).err = none ∧
      (handler env event).puts = [PutItemInput.mk "VisitorLogs"
        [("IP", if s = "" then AttributeValue.NULL true else AttributeValue.S s),
         ("Timestamp", AttributeValue.S env.now.Format)]] := by
  refine ⟨parseJSON_jsonTextIP s, ?_⟩
  intro event body hb hp hput
  rw [handler_decoded env event _ _ hb (Unmarshal_IP _ s hp)]
  simp only [encodeString]
  rw [hput]
  exact ⟨rfl, rfl⟩

/-- The scenario of the specification: the address `203.0.113.5` is put unchanged. -/
theorem handler_stores_IP_witness :
    (handler { now := { unix := 1793569565, offset := 0 },
               dynamoClient := { PutItem := fun _ => none } }
        [("body", Any.string (jsonTextIP "203.0.113.5"))]).err = none ∧
    (handler { now := { unix := 1793569565, offset := 0 },
               dynamoClient := { PutItem := fun _ => none } }
        [("body", Any.string (jsonTextIP "203.0.113.5"))]).puts = [PutItemInput.mk "VisitorLogs"
        [("IP", if "203.0.113.5" = "" then AttributeValue.NULL true
                else AttributeValue.S "203.0.113.5"),
         ("Timestamp", AttributeValue.S (Time.Format { unix := 1793569565, offset := 0 }))]] :=
  (handler_stores_IP
    { now := { unix := 1793569565, offset := 0 }, dynamoClient := { PutItem := fun _ => none } }
    "203.0.113.5").2
    [("body", Any.string (jsonTextIP "203.0.113.5"))] (jsonTextIP "203.0.113.5") rfl
    (parseJSON_jsonTextIP "203.0.113.5") rfl

/-- C7: the `Timestamp` put never comes from the request. For every text `s`,
bodies with the members `IP` = `s` and `Timestamp` = `t1`, with `IP` = `s` and
`Timestamp` = `t2`, and with `IP` = `s` alone, handled at the same clock reading,
lead to the same put, whose `Timestamp` attribute is the formatted clock reading. -/
theorem handler_timestamp_from_clock (env : Env) (e1 e2 e3 : GoMap)
    (b1 b2 b3 s t1 t2 : String)
    (h1 : e1.index "body" = Any.string b1) (h2 : e2.index "body" = Any.string b2)
    (h3 : e3.index "body" = Any.string b3)
    (p1 : parseJSON b1 =
      some (JSON.object [("IP", JSON.string s), ("Timestamp", JSON.string t1)]))
    (p2 : parseJSON b2 =
      some (JSON.object [("IP", JSON.string s), ("Timestamp", JSON.string t2)]))
    (p3 : parseJSON b3 = some (JSON.object [("IP", JSON.string s)])) :
    (handler env e1).puts = [PutItemInput.mk "VisitorLogs"
        [("IP", encodeString s), ("Timestamp", AttributeValue.S env.now.Format)]] ∧
    (handler env e2).puts = (handler env e1).puts ∧
    (handler env e3).puts = (handler env e1).puts ∧
    (∀ e : GoMap, ∀ p ∈ (handler env e).puts,
      p.Item.lookup "Timestamp" = some (AttributeValue.S env.now.Format)) := by
  refine ⟨?_, ?_, ?_, ?_⟩
  · rw [handler_decoded env e1 b1 _ h1 (Unmarshal_IP_Timestamp b1 s t1 p1)]
    cases env.dynamoClient.PutItem (PutItemInput.mk "VisitorLogs"
        [("IP", encodeString s), ("Timestamp", AttributeValue.S env.now.Format)]) <;> rfl
  · rw [handler_decoded env e1 b1 _ h1 (Unmarshal_IP_Timestamp b1 s t1 p1),
      handler_decoded env e2 b2 _ h2 (Unmarshal_IP_Timestamp b2 s t2 p2)]
  · rw [handler_decoded env e1 b1 _ h1 (Unmarshal_IP_Timestamp b1 s t1 p1),
      handler_decoded env e3 b3 _ h3 (Unmarshal_IP b3 s p3)]
  · exact fun e p hp => handler_put_timestamp env e p hp

/-- Two requests with different client timestamps and one with none. -/
theorem handler_timestamp_from_clock_witness :
    (handler { now := { unix := 1793569565, offset := 0 },
               dynamoClient := { PutItem := fun _ => none } }
        [("body", Any.string
          "\x7b\"IP\":\"203.0.113.5\",\"Timestamp\":\"1999-12-31 23:59:59\"\x7d")]).puts =
      [PutItemInput.mk "VisitorLogs"
        [("IP", encodeString "203.0.113.5"),
         ("Timestamp", AttributeValue.S (Time.Format { unix := 1793569565, offset := 0 }))]] ∧
    (handler { now := { unix := 1793569565, offset := 0 },
               dynamoClient := { PutItem := fun _ => none } }
        [("body", Any.string
          "\x7b\"IP\":\"203.0.113.5\",\"Timestamp\":\"tomorrow\"\x7d")]).puts =
      (handler { now := { unix := 1793569565, offset := 0 },
                 dynamoClient := { PutItem := fun _ => none } }
        [("body", Any.string
          "\x7b\"IP\":\"203.0.113.5\",\"Timestamp\":\"1999-12-31 23:59:59\"\x7d")]).puts ∧
    (handler { now := { unix := 1793569565, offset := 0 },
               dynamoClient := { PutItem := fun _ => none } }
        [("body", Any.string "\x7b\"IP\":\"203.0.113.5\"\x7d")]).puts =
      (handler { now := { unix := 1793569565, offset := 0 },
                 dynamoClient := { PutItem := fun _ => none } }
        [("body", Any.string
          "\x7b\"IP\":\"203.0.113.5\",\"Timestamp\":\"1999-12-31 23:59:59\"\x7d")]).puts ∧
    (∀ e : GoMap,
      ∀ p ∈ (handler { now := { unix := 1793569565, offset := 0 },
                       dynamoClient := { PutItem := fun _ => none } }
        e).puts,
      p.Item.lookup "Timestamp" =
        some (AttributeValue.S (Time.Format { unix := 1793569565, offset := 0 }))) :=
  handler_timestamp_from_clock
    { now := { unix := 1793569565, offset := 0 }, dynamoClient := { PutItem := fun _ => none } }
    _ _ _ _ _ _ "203.0.113.5" "1999-12-31 23:59:59" "tomorrow" rfl rfl rfl rfl rfl rfl

/-! ## The calendar -/

/-- The arithmetic of `absYearDay` on a day number: the counts of 400-year,
100-year and 4-year cycles and of years in a cycle, and the day within the
year, add up to the day number, and each stays within its cycle. -/
theorem yearDay_digits (d : Nat) :
    let n400 := d / 146097
    let d1 := d - 146097 * n400
    let n100 := d1 / 36524 - d1 / 36524 / 4
    let d2 := d1 - 36524 * n100
    let n4 := d2 / 1461
    let d3 := d2 - 1461 * n4
    let n1 := d3 / 365 - d3 / 365 / 4
    let yday := d3 - 365 * n1
    d = 146097 * n400 + 36524 * n100 + 1461 * n4 + 365 * n1 + yday ∧
    n100 ≤ 3 ∧ n4 ≤ 24 ∧ n1 ≤ 3 ∧
    36524 * n100 + 1461 * n4 + 365 * n1 + yday ≤ 146096 ∧
    1461 * n4 + 365 * n1 + yday ≤ 36524 ∧
    (n100 ≤ 2 → 1461 * n4 + 365 * n1 + yday ≤ 36523) ∧
    365 * n1 + yday ≤ 1460 ∧
    (n4 = 24 → n100 ≤ 2 → 365 * n1 + yday ≤ 1459) ∧
    yday ≤ 365 ∧
    (n1 ≤ 2 → yday ≤ 364) := by
  intro n400 d1 n100 d2 n4 d3 n1 yday
  have h1 : d1 ≤ 146096 := by omega
  have hd : d = 146097 * n400 + d1 := by omega
  have h2 : n100 ≤ 3 := by omega
  have h3 : d2 ≤ 36524 := by omega
  have h3' : n100 ≤ 2 → d2 ≤ 36523 := by omega
  have hd1 : d1 = 36524 * n100 + d2 := by omega
  have h4 : n4 ≤ 24 := by omega
  have hd2 : d2 = 1461 * n4 + d3 := by omega
  have h5 : d3 ≤ 1460 := by omega
  have h5' : n4 = 24 → n100 ≤ 2 → d3 ≤ 1459 := by omega
  have h6 : n1 ≤ 3 := by omega
  have hd3 : d3 = 365 * n1 + yday := by omega
  have h7 : yday ≤ 365 := by omega
  have h7' : n1 ≤ 2 → yday ≤ 364 := by omega
  clear_value n400 d1 n100 d2 n4 d3 n1 yday
  refine ⟨by omega, h2, h4, h6, by omega, by omega, by omega, by omega, by omega, h7, h7'⟩

/-- The year is a leap year exactly when the count of years from the absolute
zero year, plus one, is divisible by 4 and not by 100, or by 400. -/
theorem isLeap_of_count (y : Nat) :
    isLeap ((y : Int) + absoluteZeroYear) = true ↔
      ((y + 1) % 4 = 0 ∧ ((y + 1) % 100 ≠ 0 ∨ (y + 1) % 400 = 0)) := by
  simp only [isLeap, absoluteZeroYear, Bool.and_eq_true, Bool.or_eq_true, beq_iff_eq,
    bne_iff_ne, ne_eq]
  omega

/-- What `absYearDay` returns, in terms of the cycle counts. -/
theorem absYearDay_digits (abs : Nat) :
    ∃ n400 n100 n4 n1 : Nat,
      (absYearDay abs).1 = ((400 * n400 + 100 * n100 + 4 * n4 + n1 : Nat) : Int)
        + absoluteZeroYear ∧
      abs / secondsPerDay =
        146097 * n400 + 36524 * n100 + 1461 * n4 + 365 * n1 + (absYearDay abs).2 ∧
      n100 ≤ 3 ∧ n4 ≤ 24 ∧ n1 ≤ 3 ∧
      36524 * n100 + 1461 * n4 + 365 * n1 + (absYearDay abs).2 ≤ 146096 ∧
      1461 * n4 + 365 * n1 + (absYearDay abs).2 ≤ 36524 ∧
      (n100 ≤ 2 → 1461 * n4 + 365 * n1 + (absYearDay abs).2 ≤ 36523) ∧
      365 * n1 + (absYearDay abs).2 ≤ 1460 ∧
      (n4 = 24 → n100 ≤ 2 → 365 * n1 + (absYearDay abs).2 ≤ 1459) ∧
      (absYearDay abs).2 ≤ 365 ∧
      (n1 ≤ 2 → (absYearDay abs).2 ≤ 364) :=
  ⟨_, _, _, _, rfl, yearDay_digits (abs / secondsPerDay)⟩

/-- The day within the year is below 365, or it is 365 in a leap year. -/
theorem absYearDay_yday (abs : Nat) :
    (absYearDay abs).2 ≤ 364 ∨ isLeap (absYearDay abs).1 = true := by
  obtain ⟨n400, n100, n4, n1, hy, -, h100, h4, h1, -, -, -, -, hc, h365, h364⟩ :=
    absYearDay_digits abs
  by_cases h : (absYearDay abs).2 ≤ 364
  · exact Or.inl h
  · right
    rw [hy, isLeap_of_count]
    omega

/-- Of two instants in order, the later one has the later year, or the same
year and a day of the year that is later by the difference of the day numbers. -/
theorem absYearDay_mono (a b : Nat) (hab : a / secondsPerDay ≤ b / secondsPerDay) :
    (absYearDay a).1 < (absYearDay b).1 ∨
    ((absYearDay a).1 = (absYearDay b).1 ∧
      (absYearDay a).2 + (b / secondsPerDay - a / secondsPerDay) = (absYearDay b).2) := by
  obtain ⟨p400, p100, p4, p1, hya, hda, a100, a4, a1, ar1, ar2, ar2', ar3, -, ar4, ar4'⟩ :=
    absYearDay_digits a
  obtain ⟨q400, q100, q4, q1, hyb, hdb, b100, b4, b1, br1, br2, br2', br3, -, br4, br4'⟩ :=
    absYearDay_digits b
  rw [hya, hyb]
  generalize (absYearDay a).2 = ya at *
  generalize (absYearDay b).2 = yb at *
  generalize a / secondsPerDay = da at *
  generalize b / secondsPerDay = db at *
  simp only [absoluteZeroYear]
  rcases Nat.lt_trichotomy p400 q400 with h | h | h
  · omega
  · subst h
    rcases Nat.lt_trichotomy p100 q100 with h | h | h
    · omega
    · subst h
      rcases Nat.lt_trichotomy p4 q4 with h | h | h
      · omega
      · subst h
        rcases Nat.lt_trichotomy p1 q1 with h | h | h
        · omega
        · omega
        · omega
      · omega
    · omega
  · omega

set_option maxRecDepth 100000 in
/-- Month and day of the month are in range on every day of a year. -/
theorem monthDay_bounds : ∀ (l : Bool) (yd : Fin 366), (yd.val ≤ 364 ∨ l = true) →
    1 ≤ (monthDay l yd.val).1 ∧ (monthDay l yd.val).1 ≤ 12 ∧
    1 ≤ (monthDay l yd.val).2 ∧ (monthDay l yd.val).2 ≤ 31 := by
  decide

set_option maxRecDepth 100000 in
/-- From one day of a year to the next, the pair of month and day grows. -/
theorem monthDay_step : ∀ (l : Bool) (yd : Fin 365), (yd.val + 1 ≤ 364 ∨ l = true) →
    (monthDay l yd.val).1 * 32 + (monthDay l yd.val).2 <
      (monthDay l (yd.val + 1)).1 * 32 + (monthDay l (yd.val + 1)).2 := by
  decide

/-- The pair of month and day grows with the day of the year. -/
theorem monthDay_key_mono (l : Bool) (a : Nat) :
    ∀ b, a < b → (b ≤ 364 ∨ (b ≤ 365 ∧ l = true)) →
      (monthDay l a).1 * 32 + (monthDay l a).2 < (monthDay l b).1 * 32 + (monthDay l b).2 := by
  intro b
  induction b with
  | zero => intro h; omega
  | succ n ih =>
    intro hab hb
    have hn : n < 365 := by omega
    have hstep := monthDay_step l ⟨n, hn⟩ (by
      rcases hb with hb | ⟨-, hl⟩
      · exact Or.inl hb
      · exact Or.inr hl)
    simp only at hstep
    by_cases h : a = n
    · subst h; exact hstep
    · have := ih (by omega) (by omega)
      omega

/-- Month and day in lexicographic order follow the day of the year. -/
theorem monthDay_lex (l : Bool) (a b : Nat) (hab : a < b)
    (hb : b ≤ 364 ∨ (b ≤ 365 ∧ l = true)) :
    (monthDay l a).1 < (monthDay l b).1 ∨
    ((monthDay l a).1 = (monthDay l b).1 ∧ (monthDay l a).2 < (monthDay l b).2) := by
  have hk := monthDay_key_mono l a b hab hb
  have ha := monthDay_bounds l ⟨a, by omega⟩ (by
    rcases hb with hb | ⟨-, hl⟩
    · left; simp only; omega
    · exact Or.inr hl)
  have hb2 := monthDay_bounds l ⟨b, by omega⟩ (by
    rcases hb with hb | ⟨-, hl⟩
    · left; exact hb
    · exact Or.inr hl)
  simp only at ha hb2
  omega

/-- The time of day: hour, minute and second are in range and add up to the
second of the day. -/
theorem absClock_spec (abs : Nat) :
    (absClock abs).hour ≤ 23 ∧ (absClock abs).min ≤ 59 ∧ (absClock abs).sec ≤ 59 ∧
    abs % secondsPerDay = 3600 * (absClock abs).hour + 60 * (absClock abs).min
      + (absClock abs).sec := by
  simp only [absClock, secondsPerDay, secondsPerHour, secondsPerMinute]
  omega

/-- The date of an instant: month and day are in range. -/
theorem absDate_bounds (abs : Nat) :
    1 ≤ (absDate abs).month ∧ (absDate abs).month ≤ 12 ∧
    1 ≤ (absDate abs).day ∧ (absDate abs).day ≤ 31 := by
  have hy := absYearDay_digits abs
  obtain ⟨_, _, _, _, -, -, -, -, -, -, -, -, -, -, h365, -⟩ := hy
  have h := monthDay_bounds (isLeap (absYearDay abs).1) ⟨(absYearDay abs).2, by omega⟩
    (absYearDay_yday abs)
  exact h

/-! ## The layout of the timestamp -/

/-- A number below 100 is written with its two digits. -/
theorem appendInt_two (n : Nat) (h : n < 100) : appendInt [] (n : Int) 2 = twoDigits n := by
  have hneg : ¬ ((n : Int) < 0) := by omega
  simp [appendInt, hneg, h]

/-- A year from 0 to 9999 is written with its four digits. -/
theorem appendInt_year (y : Int) (h0 : 0 ≤ y) (h1 : y ≤ 9999) :
    appendInt [] y 4 = twoDigits (y.toNat / 100) ++ twoDigits (y.toNat % 100) := by
  obtain ⟨n, rfl⟩ : ∃ n : Nat, y = (n : Int) := ⟨y.toNat, by omega⟩
  have hneg : ¬ ((n : Int) < 0) := by omega
  have hn : n < 10000 := by omega
  simp [appendInt, hneg, hn]

/-- The timestamp of a reading in the years 0 to 9999, character by character. -/
theorem formatChars_digits (t : Time)
    (h0 : 0 ≤ (absDate t.abs).year) (h1 : (absDate t.abs).year ≤ 9999) :
    formatChars t =
      twoDigits ((absDate t.abs).year.toNat / 100) ++
        (twoDigits ((absDate t.abs).year.toNat % 100) ++
          ('-' :: (twoDigits (absDate t.abs).month ++
            ('-' :: (twoDigits (absDate t.abs).day ++
              (' ' :: (twoDigits (absClock t.abs).hour ++
                (':' :: (twoDigits (absClock t.abs).min ++
                  (':' :: (twoDigits (absClock t.abs).sec ++ []))))))))))) := by
  obtain ⟨-, hm, -, hd⟩ := absDate_bounds t.abs
  obtain ⟨hh, hmi, hs, -⟩ := absClock_spec t.abs
  rw [formatChars_eq, appendInt_year _ h0 h1, appendInt_two _ (by omega),
    appendInt_two _ (by omega), appendInt_two _ (by omega), appendInt_two _ (by omega),
    appendInt_two _ (by omega)]
  simp only [List.append_assoc, List.append_nil]

/-- The character of a digit is a decimal digit. -/
theorem digitChar_isDigit (k : Nat) (h : k < 10) : (digitChar k).isDigit = true := by
  have key : ∀ i : Fin 10, (digitChar i.val).isDigit = true := by decide
  exact key ⟨k, h⟩

/-- C9: for a clock reading in the years 0 to 9999, the `Timestamp` of every put
is the formatted reading, of the form `YYYY-MM-DD HH:MM:SS`: 19 characters, the
zero-padded decimal digits of year, month (1 to 12), day (1 to 31), hour (0 to
23), minute and second (0 to 59), with `-` at positions 4 and 7, a space at
position 10 and `:` at positions 13 and 16; 14 of the characters are digits. -/
theorem handler_timestamp_format (env : Env) (event : GoMap)
    (h0 : 0 ≤ (absDate env.now.abs).year) (h1 : (absDate env.now.abs).year ≤ 9999) :
    ∃ Y M D h m s : Nat,
      (Y : Int) = (absDate env.now.abs).year ∧ M = (absDate env.now.abs).month ∧
      D = (absDate env.now.abs).day ∧ h = (absClock env.now.abs).hour ∧
      m = (absClock env.now.abs).min ∧ s = (absClock env.now.abs).sec ∧
      Y ≤ 9999 ∧ 1 ≤ M ∧ M ≤ 12 ∧ 1 ≤ D ∧ D ≤ 31 ∧ h ≤ 23 ∧ m ≤ 59 ∧ s ≤ 59 ∧
      (∀ p ∈ (handler env event).puts,
        p.Item.lookup "Timestamp" = some (AttributeValue.S env.now.Format)) ∧
      env.now.Format = String.mk
        [digitChar (Y / 1000), digitChar (Y / 100 % 10), digitChar (Y / 10 % 10),
         digitChar (Y % 10), '-', digitChar (M / 10), digitChar (M % 10), '-',
         digitChar (D / 10), digitChar (D % 10), ' ', digitChar (h / 10), digitChar (h % 10),
         ':', digitChar (m / 10), digitChar (m % 10), ':', digitChar (s / 10),
         digitChar (s % 10)] ∧
      env.now.Format.length = 19 ∧
      (env.now.Format.data.filter Char.isDigit).length = 14 := by
  obtain ⟨hM1, hM2, hD1, hD2⟩ := absDate_bounds env.now.abs
  obtain ⟨hh, hmi, hs, -⟩ := absClock_spec env.now.abs
  have hf := formatChars_digits env.now h0 h1
  generalize (absDate env.now.abs).month = M at *
  generalize (absDate env.now.abs).day = D at *
  generalize (absClock env.now.abs).hour = h at *
  generalize (absClock env.now.abs).min = m at *
  generalize (absClock env.now.abs).sec = s at *
  obtain ⟨Y, hY⟩ : ∃ Y : Nat, (absDate env.now.abs).year = (Y : Int) :=
    ⟨(absDate env.now.abs).year.toNat, by omega⟩
  rw [hY] at hf h1
  have hY2 : Y ≤ 9999 := by omega
  have e1 : Y / 100 / 10 = Y / 1000 := by omega
  have e2 : Y / 100 % 10 = Y / 100 % 10 := rfl
  have e3 : Y % 100 / 10 = Y / 10 % 10 := by omega
  have e4 : Y % 100 % 10 = Y % 10 := by omega
  have hfmt : env.now.Format = String.mk
      [digitChar (Y / 1000), digitChar (Y / 100 % 10), digitChar (Y / 10 % 10),
       digitChar (Y % 10), '-', digitChar (M / 10), digitChar (M % 10), '-',
       digitChar (D / 10), digitChar (D % 10), ' ', digitChar (h / 10), digitChar (h % 10),
       ':', digitChar (m / 10), digitChar (m % 10), ':', digitChar (s / 10),
       digitChar (s % 10)] := by
    simp only [Time.Format, hf, twoDigits, Int.toNat_ofNat, e1, e3, e4, List.cons_append,
      List.nil_append, List.append_nil]
  refine ⟨Y, M, D, h, m, s, hY.symm, rfl, rfl, rfl, rfl, rfl, hY2, hM1, hM2, hD1, hD2, hh,
    hmi, hs, fun p hp => handler_put_timestamp env event p hp, hfmt, ?_, ?_⟩
  · rw [hfmt]; rfl
  · rw [hfmt]
    have d1 := digitChar_isDigit (Y / 1000) (by omega)
    have d2 := digitChar_isDigit (Y / 100 % 10) (by omega)
    have d3 := digitChar_isDigit (Y / 10 % 10) (by omega)
    have d4 := digitChar_isDigit (Y % 10) (by omega)
    have d5 := digitChar_isDigit (M / 10) (by omega)
    have d6 := digitChar_isDigit (M % 10) (by omega)
    have d7 := digitChar_isDigit (D / 10) (by omega)
    have d8 := digitChar_isDigit (D % 10) (by omega)
    have d9 := digitChar_isDigit (h / 10) (by omega)
    have d10 := digitChar_isDigit (h % 10) (by omega)
    have d11 := digitChar_isDigit (m / 10) (by omega)
    have d12 := digitChar_isDigit (m % 10) (by omega)
    have d13 := digitChar_isDigit (s / 10) (by omega)
    have d14 := digitChar_isDigit (s % 10) (by omega)
    have s1 : Char.isDigit '-' = false := by decide
    have s2 : Char.isDigit ' ' = false := by decide
    have s3 : Char.isDigit ':' = false := by decide
    simp only [List.filter, d1, d2, d3, d4, d5, d6, d7, d8, d9, d10, d11, d12, d13, d14,
      s1, s2, s3, List.length_cons, List.length_nil]

/-- The timestamp of the reading 2026-11-01 21:46:05 UTC. -/
theorem handler_timestamp_format_witness :
    0 ≤ (absDate (Time.abs { unix := 1793569565, offset := 0 })).year ∧
    (absDate (Time.abs { unix := 1793569565, offset := 0 })).year ≤ 9999 ∧
    Time.Format { unix := 1793569565, offset := 0 } = "2026-11-01 21:46:05" ∧
    ∃ Y M D h m s : Nat,
      (Y : Int) = (absDate (Time.abs { unix := 1793569565, offset := 0 })).year ∧
      M = (absDate (Time.abs { unix := 1793569565, offset := 0 })).month ∧
      D = (absDate (Time.abs { unix := 1793569565, offset := 0 })).day ∧
      h = (absClock (Time.abs { unix := 1793569565, offset := 0 })).hour ∧
      m = (absClock (Time.abs { unix := 1793569565, offset := 0 })).min ∧
      s = (absClock (Time.abs { unix := 1793569565, offset := 0 })).sec ∧
      Y ≤ 9999 ∧ 1 ≤ M ∧ M ≤ 12 ∧ 1 ≤ D ∧ D ≤ 31 ∧ h ≤ 23 ∧ m ≤ 59 ∧ s ≤ 59 ∧
      (∀ p ∈ (handler { now := { unix := 1793569565, offset := 0 },
                        dynamoClient := { PutItem := fun _ => none } }
          [("body", Any.string "\x7b\"IP\":\"203.0.113.5\"\x7d")]).puts,
        p.Item.lookup "Timestamp" =
          some (AttributeValue.S (Time.Format { unix := 1793569565, offset := 0 }))) ∧
      Time.Format { unix := 1793569565, offset := 0 } = String.mk
        [digitChar (Y / 1000), digitChar (Y / 100 % 10), digitChar (Y / 10 % 10),
         digitChar (Y % 10), '-', digitChar (M / 10), digitChar (M % 10), '-',
         digitChar (D / 10), digitChar (D % 10), ' ', digitChar (h / 10), digitChar (h % 10),
         ':', digitChar (m / 10), digitChar (m % 10), ':', digitChar (s / 10),
         digitChar (s % 10)] ∧
      (Time.Format { unix := 1793569565, offset := 0 }).length = 19 ∧
      ((Time.Format { unix := 1793569565, offset := 0 }).data.filter Char.isDigit).length = 14 :=
  ⟨by decide, by decide, by decide,
    handler_timestamp_format
      { now := { unix := 1793569565, offset := 0 }, dynamoClient := { PutItem := fun _ => none } }
      [("body", Any.string "\x7b\"IP\":\"203.0.113.5\"\x7d")]
      (by decide) (by decide)⟩

/-! ## The order of timestamps -/

/-- A list is not below another one in lexicographic order when its head is
larger, or the heads are equal and its tail is not below the other tail. -/
theorem not_lt_cons (a b : Char) (as bs : List Char)
    (h : a < b ∨ (a = b ∧ ¬ List.lt bs as)) : ¬ List.lt (b :: bs) (a :: as) := by
  intro hlt
  cases hlt with
  | head _ _ hba =>
    rcases h with h | ⟨h, -⟩
    · exact Char.lt_asymm h hba
    · subst h; exact Char.lt_irrefl a hba
  | tail hba hab htl =>
    rcases h with h | ⟨-, h⟩
    · exact hab h
    · exact h htl

/-- The characters of digits are in the order of the digits. -/
theorem digitChar_lt (a b : Nat) (hab : a < b) (hb : b < 10) : digitChar a < digitChar b := by
  have key : ∀ i j : Fin 10, i < j → digitChar i.val < digitChar j.val := by decide
  exact key ⟨a, by omega⟩ ⟨b, hb⟩ hab

/-- Two-digit fields compare as their numbers do. -/
theorem not_lt_twoDigits (a b : Nat) (x y : List Char) (ha : a < 100) (hb : b < 100)
    (h : a < b ∨ (a = b ∧ ¬ List.lt y x)) :
    ¬ List.lt (twoDigits b ++ y) (twoDigits a ++ x) := by
  simp only [twoDigits, List.cons_append, List.nil_append]
  apply not_lt_cons
  rcases h with h | ⟨h, hxy⟩
  · by_cases h10 : a / 10 < b / 10
    · exact Or.inl (digitChar_lt _ _ h10 (by omega))
    · right
      have he : a / 10 = b / 10 := by omega
      refine ⟨by rw [he], ?_⟩
      apply not_lt_cons
      exact Or.inl (digitChar_lt _ _ (by omega) (by omega))
  · subst h
    exact Or.inr ⟨rfl, not_lt_cons _ _ _ _ (Or.inr ⟨rfl, hxy⟩)⟩

/-- A shared separator does not change the order. -/
theorem not_lt_sep (c : Char) (x y : List Char) (h : ¬ List.lt y x) :
    ¬ List.lt (c :: y) (c :: x) :=
  not_lt_cons c c x y (Or.inr ⟨rfl, h⟩)

/-- The date depends on the day number only. -/
theorem absDate_of_day (a b : Nat) (h : a / secondsPerDay = b / secondsPerDay) :
    absDate a = absDate b := by
  have hy : absYearDay a = absYearDay b := by
    simp only [absYearDay, h]
  simp only [absDate, hy]

/-- Of two instants in order, the later one has the later date and time in the
order of year, month, day, hour, minute, second. -/
theorem date_clock_lex (a b : Nat) (hab : a ≤ b) :
    (absDate a).year < (absDate b).year ∨ ((absDate a).year = (absDate b).year ∧
      ((absDate a).month < (absDate b).month ∨ ((absDate a).month = (absDate b).month ∧
        ((absDate a).day < (absDate b).day ∨ ((absDate a).day = (absDate b).day ∧
          ((absClock a).hour < (absClock b).hour ∨ ((absClock a).hour = (absClock b).hour ∧
            ((absClock a).min < (absClock b).min ∨ ((absClock a).min = (absClock b).min ∧
              (absClock a).sec ≤ (absClock b).sec))))))))) := by
  have hd : a / secondsPerDay ≤ b / secondsPerDay := Nat.div_le_div_right hab
  rcases Nat.lt_or_eq_of_le hd with hlt | heq
  · rcases absYearDay_mono a b hd with hy | ⟨hy, hyd⟩
    · exact Or.inl hy
    · right
      refine ⟨hy, ?_⟩
      have hvalid := absYearDay_yday b
      obtain ⟨_, _, _, _, -, -, -, -, -, -, -, -, -, -, h365, -⟩ := absYearDay_digits b
      have hl := monthDay_lex (isLeap (absYearDay b).1) (absYearDay a).2 (absYearDay b).2
        (by omega) (by
          rcases hvalid with hv | hv
          · exact Or.inl hv
          · exact Or.inr ⟨h365, hv⟩)
      have e1 : (absDate a).month = (monthDay (isLeap (absYearDay b).1) (absYearDay a).2).1 := by
        simp only [absDate, hy]
      have e2 : (absDate a).day = (monthDay (isLeap (absYearDay b).1) (absYearDay a).2).2 := by
        simp only [absDate, hy]
      have e3 : (absDate b).month = (monthDay (isLeap (absYearDay b).1) (absYearDay b).2).1 := rfl
      have e4 : (absDate b).day = (monthDay (isLeap (absYearDay b).1) (absYearDay b).2).2 := rfl
      rw [e1, e2, e3, e4]
      rcases hl with hl | ⟨hl1, hl2⟩
      · exact Or.inl hl
      · exact Or.inr ⟨hl1, Or.inl hl2⟩
  · rw [absDate_of_day a b heq]
    refine Or.inr ⟨rfl, Or.inr ⟨rfl, Or.inr ⟨rfl, ?_⟩⟩⟩
    obtain ⟨ah, am, as, ae⟩ := absClock_spec a
    obtain ⟨bh, bm, bs, be⟩ := absClock_spec b
    have hs : a % secondsPerDay ≤ b % secondsPerDay := by
      simp only [secondsPerDay, secondsPerHour, secondsPerMinute] at heq ⊢
      omega
    omega

/-- For a reading in the years 0 to 9999 the `uint64` arithmetic of `Time.abs`
does not wrap around. -/
theorem abs_eq_of_year (t : Time) (w : t.wellFormed)
    (h0 : 0 ≤ (absDate t.abs).year) (h1 : (absDate t.abs).year ≤ 9999) :
    (t.abs : Int) = t.unix + t.offset + unixToAbsolute := by
  obtain ⟨n400, n100, n4, n1, hy, hd, c100, c4, c1, r1, -⟩ := absYearDay_digits t.abs
  have hyear : (absDate t.abs).year = (absYearDay t.abs).1 := rfl
  rw [hyear, hy] at h0 h1
  obtain ⟨wu0, wu1, wo0, wo1⟩ := w
  simp only [absoluteZeroYear] at h0 h1
  simp only [secondsPerDay, secondsPerHour, secondsPerMinute] at hd
  generalize (absYearDay t.abs).2 = yd at *
  have habs : (t.abs : Int) = (t.unix + t.offset + unixToAbsolute) % (2 ^ 64 : Int) := by
    simp only [Time.abs]
    exact Int.toNat_of_nonneg (Int.emod_nonneg _ (by norm_num))
  simp only [unixToAbsolute] at habs ⊢
  norm_num at wu0 wu1 wo0 wo1 habs ⊢
  omega

/-- The timestamps of two instants in order, both in the years 0 to 9999, are
in lexicographic order. -/
theorem formatChars_mono (t1 t2 : Time) (hab : t1.abs ≤ t2.abs)
    (y1 : 0 ≤ (absDate t1.abs).year ∧ (absDate t1.abs).year ≤ 9999)
    (y2 : 0 ≤ (absDate t2.abs).year ∧ (absDate t2.abs).year ≤ 9999) :
    ¬ List.lt (formatChars t2) (formatChars t1) := by
  rw [formatChars_digits t1 y1.1 y1.2, formatChars_digits t2 y2.1 y2.2]
  have hlex := date_clock_lex t1.abs t2.abs hab
  obtain ⟨-, am, -, ad⟩ := absDate_bounds t1.abs
  obtain ⟨-, bm, -, bd⟩ := absDate_bounds t2.abs
  obtain ⟨ah, ami, as, -⟩ := absClock_spec t1.abs
  obtain ⟨bh, bmi, bs, -⟩ := absClock_spec t2.abs
  obtain ⟨Ya, hYa⟩ : ∃ Y : Nat, (absDate t1.abs).year = (Y : Int) :=
    ⟨(absDate t1.abs).year.toNat, by omega⟩
  obtain ⟨Yb, hYb⟩ : ∃ Y : Nat, (absDate t2.abs).year = (Y : Int) :=
    ⟨(absDate t2.abs).year.toNat, by omega⟩
  rw [hYa, hYb] at hlex ⊢
  simp only [Int.toNat_ofNat]
  have hYa2 : Ya ≤ 9999 := by omega
  have hYb2 : Yb ≤ 9999 := by omega
  generalize (absDate t1.abs).month = Ma at *
  generalize (absDate t1.abs).day = Da at *
  generalize (absClock t1.abs).hour = ha at *
  generalize (absClock t1.abs).min = ma at *
  generalize (absClock t1.abs).sec = sa at *
  generalize (absDate t2.abs).month = Mb at *
  generalize (absDate t2.abs).day = Db at *
  generalize (absClock t2.abs).hour = hb at *
  generalize (absClock t2.abs).min = mb at *
  generalize (absClock t2.abs).sec = sb at *
  have nil_not : ¬ List.lt ([] : List Char) [] := fun h => by cases h
  rcases hlex with hY | ⟨hY, hrest⟩
  · have hY' : Ya < Yb := by omega
    by_cases hc : Ya / 100 < Yb / 100
    · exact not_lt_twoDigits _ _ _ _ (by omega) (by omega) (Or.inl hc)
    · have he : Ya / 100 = Yb / 100 := by omega
      refine not_lt_twoDigits _ _ _ _ (by omega) (by omega) (Or.inr ⟨he, ?_⟩)
      exact not_lt_twoDigits _ _ _ _ (by omega) (by omega) (Or.inl (by omega))
  · have hY' : Ya = Yb := by omega
    subst hY'
    refine not_lt_twoDigits _ _ _ _ (by omega) (by omega) (Or.inr ⟨rfl, ?_⟩)
    refine not_lt_twoDigits _ _ _ _ (by omega) (by omega) (Or.inr ⟨rfl, ?_⟩)
    apply not_lt_sep
    rcases hrest with hM | ⟨hM, hrest⟩
    · exact not_lt_twoDigits _ _ _ _ (by omega) (by omega) (Or.inl hM)
    · refine not_lt_twoDigits _ _ _ _ (by omega) (by omega) (Or.inr ⟨hM, ?_⟩)
      apply not_lt_sep
      rcases hrest with hD | ⟨hD, hrest⟩
      · exact not_lt_twoDigits _ _ _ _ (by omega) (by omega) (Or.inl hD)
      · refine not_lt_twoDigits _ _ _ _ (by omega) (by omega) (Or.inr ⟨hD, ?_⟩)
        apply not_lt_sep
        rcases hrest with hh | ⟨hh, hrest⟩
        · exact not_lt_twoDigits _ _ _ _ (by omega) (by omega) (Or.inl hh)
        · refine not_lt_twoDigits _ _ _ _ (by omega) (by omega) (Or.inr ⟨hh, ?_⟩)
          apply not_lt_sep
          rcases hrest with hm | ⟨hm, hs⟩
          · exact not_lt_twoDigits _ _ _ _ (by omega) (by omega) (Or.inl hm)
          · refine not_lt_twoDigits _ _ _ _ (by omega) (by omega) (Or.inr ⟨hm, ?_⟩)
            apply not_lt_sep
            rcases Nat.lt_or_eq_of_le hs with hs | hs
            · exact not_lt_twoDigits _ _ _ _ (by omega) (by omega) (Or.inl hs)
            · exact not_lt_twoDigits _ _ _ _ (by omega) (by omega) (Or.inr ⟨hs, nil_not⟩)

/-- C8, the claim as stated fails: in one time zone the offset changes when
daylight saving time ends. In America/New_York the reading 1793512799 has the
offset -14400 and the next second, 1793512800, the offset -18000; both are in
the year 2026, the readings are in order, and the handler writes
`2026-11-01 01:59:59` and then `2026-11-01 01:00:00`, which is smaller. -/
theorem timestamp_decreases_at_end_of_dst :
    Time.wellFormed { unix := 1793512799, offset := -14400 } ∧
    Time.wellFormed { unix := 1793512800, offset := -18000 } ∧
    (1793512799 : Int) ≤ 1793512800 ∧
    (absDate (Time.abs { unix := 1793512799, offset := -14400 })).year = 2026 ∧
    (absDate (Time.abs { unix := 1793512800, offset := -18000 })).year = 2026 ∧
    (handler { now := { unix := 1793512799, offset := -14400 },
               dynamoClient := { PutItem := fun _ => none } }
        [("body", Any.string "\x7b\"IP\":\"203.0.113.5\"\x7d")]).puts =
      [PutItemInput.mk "VisitorLogs" [("IP", AttributeValue.S "203.0.113.5"),
        ("Timestamp", AttributeValue.S "2026-11-01 01:59:59")]] ∧
    (handler { now := { unix := 1793512800, offset := -18000 },
               dynamoClient := { PutItem := fun _ => none } }
        [("body", Any.string "\x7b\"IP\":\"203.0.113.5\"\x7d")]).puts =
      [PutItemInput.mk "VisitorLogs" [("IP", AttributeValue.S "203.0.113.5"),
        ("Timestamp", AttributeValue.S "2026-11-01 01:00:00")]] ∧
    ¬ (Time.Format { unix := 1793512799, offset := -14400 } ≤
        Time.Format { unix := 1793512800, offset := -18000 }) := by
  refine ⟨⟨by decide, by decide, by decide, by decide⟩,
    ⟨by decide, by decide, by decide, by decide⟩, by decide, by decide, by decide,
    by decide, by decide, ?_⟩
  have e1 : Time.Format { unix := 1793512799, offset := -14400 } = "2026-11-01 01:59:59" := by
    decide
  have e2 : Time.Format { unix := 1793512800, offset := -18000 } = "2026-11-01 01:00:00" := by
    decide
  rw [e1, e2]
  intro h
  apply h
  rw [String.lt_iff_toList_lt]
  decide

/-- C8, amended: the `Timestamp` written is non-decreasing over invocations
that read the clock at the same offset from UTC. For two invocations whose
clock readings are in order, have the same offset and are in the years 0 to
9999, the `Timestamp` attributes of their puts are the formatted readings, and
the first is at most the second in lexicographic string order. -/
theorem handler_timestamp_monotone (env1 env2 : Env) (e1 e2 : GoMap)
    (w1 : env1.now.wellFormed) (w2 : env2.now.wellFormed)
    (hz : env1.now.offset = env2.now.offset) (hle : env1.now.unix ≤ env2.now.unix)
    (y1 : 0 ≤ (absDate env1.now.abs).year ∧ (absDate env1.now.abs).year ≤ 9999)
    (y2 : 0 ≤ (absDate env2.now.abs).year ∧ (absDate env2.now.abs).year ≤ 9999) :
    (∀ p ∈ (handler env1 e1).puts,
      p.Item.lookup "Timestamp" = some (AttributeValue.S env1.now.Format)) ∧
    (∀ p ∈ (handler env2 e2).puts,
      p.Item.lookup "Timestamp" = some (AttributeValue.S env2.now.Format)) ∧
    env1.now.Format ≤ env2.now.Format := by
  refine ⟨fun p hp => handler_put_timestamp env1 e1 p hp,
    fun p hp => handler_put_timestamp env2 e2 p hp, ?_⟩
  have a1 := abs_eq_of_year env1.now w1 y1.1 y1.2
  have a2 := abs_eq_of_year env2.now w2 y2.1 y2.2
  have hab : env1.now.abs ≤ env2.now.abs := by omega
  intro hlt
  rw [String.lt_iff_toList_lt] at hlt
  exact formatChars_mono env1.now env2.now hab y1 y2 ((List.lt_iff_lex_lt _ _).mpr hlt)

/-- Two invocations one second apart, across the end of the year 2026. -/
theorem handler_timestamp_monotone_witness :
    Time.wellFormed { unix := 1798761599, offset := 0 } ∧
    Time.wellFormed { unix := 1798761600, offset := 0 } ∧
    (0 ≤ (absDate (Time.abs { unix := 1798761599, offset := 0 })).year ∧
      (absDate (Time.abs { unix := 1798761599, offset := 0 })).year ≤ 9999) ∧
    (0 ≤ (absDate (Time.abs { unix := 1798761600, offset := 0 })).year ∧
      (absDate (Time.abs { unix := 1798761600, offset := 0 })).year ≤ 9999) ∧
    Time.Format { unix := 1798761599, offset := 0 } = "2026-12-31 23:59:59" ∧
    Time.Format { unix := 1798761600, offset := 0 } = "2027-01-01 00:00:00" ∧
    (∀ p ∈ (handler { now := { unix := 1798761599, offset := 0 },
                      dynamoClient := { PutItem := fun _ => none } }
        [("body", Any.string "\x7b\"IP\":\"203.0.113.5\"\x7d")]).puts,
      p.Item.lookup "Timestamp" =
        some (AttributeValue.S (Time.Format { unix := 1798761599, offset := 0 }))) ∧
    (∀ p ∈ (handler { now := { unix := 1798761600, offset := 0 },
                      dynamoClient := { PutItem := fun _ => none } }
        [("body", Any.string "\x7b\"IP\":\"198.51.100.7\"\x7d")]).puts,
      p.Item.lookup "Timestamp" =
        some (AttributeValue.S (Time.Format { unix := 1798761600, offset := 0 }))) ∧
    Time.Format { unix := 1798761599, offset := 0 } ≤
      Time.Format { unix := 1798761600, offset := 0 } :=
  ⟨⟨by decide, by decide, by decide, by decide⟩, ⟨by decide, by decide, by decide, by decide⟩,
    ⟨by decide, by decide⟩, ⟨by decide, by decide⟩, by decide, by decide,
    handler_timestamp_monotone
      { now := { unix := 1798761599, offset := 0 }, dynamoClient := { PutItem := fun _ => none } }
      { now := { unix := 1798761600, offset := 0 }, dynamoClient := { PutItem := fun _ => none } }
      [("body", Any.string "\x7b\"IP\":\"203.0.113.5\"\x7d")]
      [("body", Any.string "\x7b\"IP\":\"198.51.100.7\"\x7d")]
      ⟨by decide, by decide, by decide, by decide⟩ ⟨by decide, by decide, by decide, by decide⟩
      rfl (by decide) ⟨by decide, by decide⟩ ⟨by decide, by decide⟩⟩

/-! ## The fuel of the parser -/

/-- Skipping white space does not lengthen the text. -/
theorem skipSpace_length (cs : List Char) : (skipSpace cs).length ≤ cs.length := by
  induction cs with
  | nil => simp [skipSpace]
  | cons c cs ih =>
    unfold skipSpace
    split_ifs
    · simp only [List.length_cons]; omega
    · exact Nat.le_refl _

/-- An escape reads at least one character. -/
theorem scanEscape_length (cs : List Char) (x : Char) (r : List Char)
    (h : scanEscape cs = some (x, r)) : r.length < cs.length := by
  unfold scanEscape at h
  split at h
  · simp at h
  · rename_i e r0
    split_ifs at h with h1
    · split at h
      · rename_i a b c d r4
        split at h
        · simp at h
        · split_ifs at h with h2
          · split at h
            · split_ifs at h with h3
              · simp only [Option.some.injEq, Prod.mk.injEq] at h
                rw [← h.2]
                simp only [List.length_drop, List.length_cons]
                omega
              · simp only [Option.some.injEq, Prod.mk.injEq] at h
                rw [← h.2]
                simp only [List.length_cons]
                omega
            · simp only [Option.some.injEq, Prod.mk.injEq] at h
              rw [← h.2]
              simp only [List.length_cons]
              omega
          · simp only [Option.some.injEq, Prod.mk.injEq] at h
            rw [← h.2]
            simp only [List.length_cons]
            omega
      · simp at h
    · split at h
      · simp at h
      · simp only [Option.some.injEq, Prod.mk.injEq] at h
        rw [← h.2]
        simp

/-- A string literal reads at least its closing quote. -/
theorem scanString_length (fuel : Nat) :
    ∀ cs s r, scanString fuel cs = some (s, r) → r.length < cs.length := by
  induction fuel with
  | zero => intro cs s r h; simp [scanString] at h
  | succ f ih =>
    intro cs s r h
    unfold scanString at h
    cases cs with
    | nil => simp at h
    | cons c rest =>
      simp only at h
      split_ifs at h with h1 h2 h3
      · simp only [Option.some.injEq, Prod.mk.injEq] at h
        rw [← h.2]; simp
      · cases he : scanEscape rest with
        | none => simp [he] at h
        | some p =>
          obtain ⟨x, r1⟩ := p
          simp only [he] at h
          cases hs : scanString f r1 with
          | none => simp [hs] at h
          | some q =>
            obtain ⟨s1, r2⟩ := q
            simp only [hs, Option.map_some', Option.some.injEq, Prod.mk.injEq] at h
            have l1 := scanEscape_length rest x r1 he
            have l2 := ih r1 s1 r2 hs
            rw [← h.2]
            simp only [List.length_cons]
            omega
      · cases hs : scanString f rest with
        | none => simp [hs] at h
        | some q =>
          obtain ⟨s1, r2⟩ := q
          simp only [hs, Option.map_some', Option.some.injEq, Prod.mk.injEq] at h
          have l2 := ih rest s1 r2 hs
          rw [← h.2]
          simp only [List.length_cons]
          omega

/-- A string literal reads at least its closing quote. -/
theorem stringLiteral_length (cs s r : List Char) (h : stringLiteral cs = some (s, r)) :
    r.length < cs.length :=
  scanString_length _ cs s r h

/-- The text after the digits is not longer than the text. -/
theorem scanDigits_length (cs : List Char) : (scanDigits cs).2.length ≤ cs.length := by
  induction cs with
  | nil => simp [scanDigits]
  | cons c cs ih =>
    unfold scanDigits
    split_ifs
    · simp only [Prod.map_snd, id_eq, List.length_cons]; omega
    · exact Nat.le_refl _

/-- The text after an integer part is not longer than the text. -/
theorem scanInt_length (cs i r : List Char) (h : scanInt cs = some (i, r)) :
    r.length ≤ cs.length := by
  unfold scanInt at h
  cases cs with
  | nil => simp at h
  | cons c cs =>
    simp only at h
    split_ifs at h
    · simp only [Option.some.injEq, Prod.mk.injEq] at h
      rw [← h.2]; simp
    · simp only [Option.some.injEq] at h
      have hl := scanDigits_length cs
      have : r = (scanDigits cs).2 := by
        have := congrArg Prod.snd h
        simpa using this.symm
      rw [this]; simp only [List.length_cons]; omega

/-- The text after a fraction is not longer than the text. -/
theorem scanFrac_length (cs f r : List Char) (h : scanFrac cs = some (f, r)) :
    r.length ≤ cs.length := by
  unfold scanFrac at h
  split at h
  · rename_i cs2
    have hl := scanDigits_length cs2
    split at h
    · simp at h
    · rename_i ds rest hne heq
      simp only [Option.some.injEq, Prod.mk.injEq] at h
      rw [heq] at hl
      rw [← h.2]; simp only [List.length_cons]; simp only at hl; omega
  · simp only [Option.some.injEq, Prod.mk.injEq] at h
    rw [← h.2]

/-- The text after an exponent is not longer than the text. -/
theorem scanExp_length (cs e r : List Char) (h : scanExp cs = some (e, r)) :
    r.length ≤ cs.length := by
  unfold scanExp at h
  cases cs with
  | nil =>
    simp only [Option.some.injEq, Prod.mk.injEq] at h
    rw [← h.2]
  | cons c cs =>
    simp only at h
    split_ifs at h with hc
    · have key : ∀ sg : List Char × List Char, sg.2.length ≤ cs.length →
          (match scanDigits sg.2 with
            | ([], _) => none
            | (ds, rest) => some (c :: (sg.1 ++ ds), rest)) = some (e, r) →
          r.length ≤ cs.length := by
        intro sg hsg hm
        have hl := scanDigits_length sg.2
        split at hm
        · simp at hm
        · rename_i ds rest hne heq
          simp only [Option.some.injEq, Prod.mk.injEq] at hm
          rw [heq] at hl
          rw [← hm.2]; simp only at hl; omega
      have hr := key _ (by
        cases cs with
        | nil => simp
        | cons s r0 =>
          simp only
          split_ifs
          · simp
          · simp) h
      simp only [List.length_cons]; omega
    · simp only [Option.some.injEq, Prod.mk.injEq] at h
      rw [← h.2]

/-- The text after a number is not longer than the text. -/
theorem scanNumber_length (cs n r : List Char) (h : scanNumber cs = some (n, r)) :
    r.length ≤ cs.length := by
  unfold scanNumber at h
  have key : ∀ sg : List Char × List Char, sg.2.length ≤ cs.length →
      (match scanInt sg.2 with
        | none => none
        | some (i, r1) =>
          match scanFrac r1 with
          | none => none
          | some (f, r2) =>
            match scanExp r2 with
            | none => none
            | some (e, r3) => some (sg.1 ++ i ++ f ++ e, r3)) = some (n, r) →
      r.length ≤ cs.length := by
    intro sg hsg hm
    cases h1 : scanInt sg.2 with
    | none => simp [h1] at hm
    | some p1 =>
      obtain ⟨i, r1⟩ := p1
      simp only [h1] at hm
      cases h2 : scanFrac r1 with
      | none => simp [h2] at hm
      | some p2 =>
        obtain ⟨f, r2⟩ := p2
        simp only [h2] at hm
        cases h3 : scanExp r2 with
        | none => simp [h3] at hm
        | some p3 =>
          obtain ⟨e, r3⟩ := p3
          simp only [h3, Option.some.injEq, Prod.mk.injEq] at hm
          have l1 := scanInt_length _ _ _ h1
          have l2 := scanFrac_length _ _ _ h2
          have l3 := scanExp_length _ _ _ h3
          rw [← hm.2]; omega
  refine key _ ?_ h
  split
  · simp
  · simp

/-- The text after a word is not longer than the text. -/
theorem dropWord_length (w : List Char) : ∀ cs r, dropWord w cs = some r →
    r.length ≤ cs.length := by
  induction w with
  | nil => intro cs r h; simp only [dropWord, Option.some.injEq] at h; rw [h]
  | cons c w ih =>
    intro cs r h
    cases cs with
    | nil => simp [dropWord] at h
    | cons d cs =>
      simp only [dropWord] at h
      split_ifs at h
      have := ih cs r h
      simp only [List.length_cons]; omega

/-- The parser returns a text that is not longer than the one it was given. -/
theorem parse_length (fuel : Nat) :
    (∀ d cs v r, parseValue fuel d cs = some (v, r) → r.length ≤ cs.length) ∧
    (∀ d cs ms r, parseMembers fuel d cs = some (ms, r) → r.length ≤ cs.length) ∧
    (∀ d cs vs r, parseElements fuel d cs = some (vs, r) → r.length ≤ cs.length) := by
  induction fuel with
  | zero =>
    refine ⟨?_, ?_, ?_⟩ <;> intro d cs v r h
    · simp [parseValue] at h
    · simp [parseMembers] at h
    · simp [parseElements] at h
  | succ f ih =>
    obtain ⟨ihV, ihM, ihE⟩ := ih
    refine ⟨?_, ?_, ?_⟩
    · intro d cs v r h
      unfold parseValue at h
      cases cs with
      | nil => simp at h
      | cons c rest =>
        simp only at h
        have hsk := skipSpace_length rest
        by_cases h1 : c = Char.ofNat 123
        · rw [if_pos h1] at h
          by_cases hd : maxNestingDepth ≤ d
          · rw [if_pos hd] at h; simp at h
          · rw [if_neg hd] at h
            cases hs : skipSpace rest with
            | nil => rw [hs] at h; simp at h
            | cons k r0 =>
              rw [hs] at h hsk
              simp only at h
              by_cases hk : k = Char.ofNat 125
              · rw [if_pos hk] at h
                simp only [Option.some.injEq, Prod.mk.injEq] at h
                rw [← h.2]
                simp only [List.length_cons] at hsk ⊢; omega
              · rw [if_neg hk] at h
                cases hm : parseMembers f (d + 1) (k :: r0) with
                | none => rw [hm] at h; simp at h
                | some p =>
                  obtain ⟨ms, r1⟩ := p
                  rw [hm] at h
                  simp only [Option.map_some', Option.some.injEq, Prod.mk.injEq] at h
                  have := ihM _ _ _ _ hm
                  rw [← h.2]
                  simp only [List.length_cons] at hsk this ⊢; omega
        · rw [if_neg h1] at h
          by_cases h2 : c = '['
          · rw [if_pos h2] at h
            by_cases hd : maxNestingDepth ≤ d
            · rw [if_pos hd] at h; simp at h
            · rw [if_neg hd] at h
              cases hs : skipSpace rest with
              | nil => rw [hs] at h; simp at h
              | cons k r0 =>
                rw [hs] at h hsk
                simp only at h
                by_cases hk : k = ']'
                · rw [if_pos hk] at h
                  simp only [Option.some.injEq, Prod.mk.injEq] at h
                  rw [← h.2]
                  simp only [List.length_cons] at hsk ⊢; omega
                · rw [if_neg hk] at h
                  cases hm : parseElements f (d + 1) (k :: r0) with
                  | none => rw [hm] at h; simp at h
                  | some p =>
                    obtain ⟨ms, r1⟩ := p
                    rw [hm] at h
                    simp only [Option.map_some', Option.some.injEq, Prod.mk.injEq] at h
                    have := ihE _ _ _ _ hm
                    rw [← h.2]
                    simp only [List.length_cons] at hsk this ⊢; omega
          · rw [if_neg h2] at h
            by_cases h3 : c = '"'
            · rw [if_pos h3] at h
              cases hm : stringLiteral rest with
              | none => rw [hm] at h; simp at h
              | some p =>
                obtain ⟨s, r1⟩ := p
                rw [hm] at h
                simp only [Option.map_some', Option.some.injEq, Prod.mk.injEq] at h
                have := stringLiteral_length _ _ _ hm
                rw [← h.2]
                simp only [List.length_cons]; omega
            · rw [if_neg h3] at h
              have hword : ∀ (w : List Char) (x : JSON),
                  (dropWord w rest).map (fun r => (x, r)) = some (v, r) →
                  r.length ≤ (c :: rest).length := by
                intro w x hw
                cases hm : dropWord w rest with
                | none => rw [hm] at hw; simp at hw
                | some r1 =>
                  rw [hm] at hw
                  simp only [Option.map_some', Option.some.injEq, Prod.mk.injEq] at hw
                  have := dropWord_length _ _ _ hm
                  rw [← hw.2]
                  simp only [List.length_cons]; omega
              by_cases h4 : c = 't'
              · rw [if_pos h4] at h; exact hword _ _ h
              · rw [if_neg h4] at h
                by_cases h5 : c = 'f'
                · rw [if_pos h5] at h; exact hword _ _ h
                · rw [if_neg h5] at h
                  by_cases h6 : c = 'n'
                  · rw [if_pos h6] at h; exact hword _ _ h
                  · rw [if_neg h6] at h
                    cases hm : scanNumber (c :: rest) with
                    | none => rw [hm] at h; simp at h
                    | some p =>
                      obtain ⟨s, r1⟩ := p
                      rw [hm] at h
                      simp only [Option.map_some', Option.some.injEq, Prod.mk.injEq] at h
                      have := scanNumber_length _ _ _ hm
                      rw [← h.2]
                      exact this
    · intro d cs ms r h
      unfold parseMembers at h
      cases cs with
      | nil => simp at h
      | cons q r0 =>
        simp only at h
        by_cases hq : q = '"'
        · rw [if_pos hq] at h
          cases hk : stringLiteral r0 with
          | none => rw [hk] at h; simp at h
          | some p =>
            obtain ⟨k, r1⟩ := p
            rw [hk] at h
            simp only at h
            have l1 := stringLiteral_length _ _ _ hk
            have l2 := skipSpace_length r1
            cases hs : skipSpace r1 with
            | nil => rw [hs] at h; simp at h
            | cons colon r2 =>
              rw [hs] at h l2
              simp only at h
              by_cases hc : colon = ':'
              · rw [if_pos hc] at h
                have l3 := skipSpace_length r2
                cases hv : parseValue f d (skipSpace r2) with
                | none => rw [hv] at h; simp at h
                | some pv =>
                  obtain ⟨v, r3⟩ := pv
                  rw [hv] at h
                  simp only at h
                  have l4 := ihV _ _ _ _ hv
                  have l5 := skipSpace_length r3
                  cases hs3 : skipSpace r3 with
                  | nil => rw [hs3] at h; simp at h
                  | cons sep r4 =>
                    rw [hs3] at h l5
                    simp only at h
                    by_cases hsep : sep = ','
                    · rw [if_pos hsep] at h
                      have l6 := skipSpace_length r4
                      cases hm : parseMembers f d (skipSpace r4) with
                      | none => rw [hm] at h; simp at h
                      | some pm =>
                        obtain ⟨ms2, r5⟩ := pm
                        rw [hm] at h
                        simp only [Option.map_some', Option.some.injEq, Prod.mk.injEq] at h
                        have l7 := ihM _ _ _ _ hm
                        rw [← h.2]
                        simp only [List.length_cons] at l2 l5 ⊢; omega
                    · rw [if_neg hsep] at h
                      by_cases hb : sep = Char.ofNat 125
                      · rw [if_pos hb] at h
                        simp only [Option.some.injEq, Prod.mk.injEq] at h
                        rw [← h.2]
                        simp only [List.length_cons] at l2 l5 ⊢; omega
                      · rw [if_neg hb] at h; simp at h
              · rw [if_neg hc] at h; simp at h
        · rw [if_neg hq] at h; simp at h
    · intro d cs vs r h
      unfold parseElements at h
      cases hv : parseValue f d cs with
      | none => rw [hv] at h; simp at h
      | some pv =>
        obtain ⟨v, r1⟩ := pv
        rw [hv] at h
        simp only at h
        have l1 := ihV _ _ _ _ hv
        have l2 := skipSpace_length r1
        cases hs : skipSpace r1 with
        | nil => rw [hs] at h; simp at h
        | cons sep r2 =>
          rw [hs] at h l2
          simp only at h
          by_cases hsep : sep = ','
          · rw [if_pos hsep] at h
            have l3 := skipSpace_length r2
            cases hm : parseElements f d (skipSpace r2) with
            | none => rw [hm] at h; simp at h
            | some pm =>
              obtain ⟨vs2, r3⟩ := pm
              rw [hm] at h
              simp only [Option.map_some', Option.some.injEq, Prod.mk.injEq] at h
              have l4 := ihE _ _ _ _ hm
              rw [← h.2]
              simp only [List.length_cons] at l2 ⊢; omega
          · rw [if_neg hsep] at h
            by_cases hb : sep = ']'
            · rw [if_pos hb] at h
              simp only [Option.some.injEq, Prod.mk.injEq] at h
              rw [← h.2]
              simp only [List.length_cons] at l2 ⊢; omega
            · rw [if_neg hb] at h; simp at h

/-- With fuel for twice the length of the text, one more unit of fuel does not
change what the parser returns. -/
theorem parse_fuel_succ (fuel : Nat) :
    (∀ d cs, 2 * cs.length + 1 ≤ fuel → parseValue (fuel + 1) d cs = parseValue fuel d cs) ∧
    (∀ d cs, 2 * cs.length + 1 ≤ fuel →
      parseMembers (fuel + 1) d cs = parseMembers fuel d cs) ∧
    (∀ d cs, 2 * cs.length + 2 ≤ fuel →
      parseElements (fuel + 1) d cs = parseElements fuel d cs) := by
  induction fuel with
  | zero =>
    refine ⟨?_, ?_, ?_⟩ <;> intro d cs h <;> omega
  | succ g ih =>
    obtain ⟨ihV, ihM, ihE⟩ := ih
    refine ⟨?_, ?_, ?_⟩
    · intro d cs hf
      unfold parseValue
      cases cs with
      | nil => rfl
      | cons c rest =>
        simp only
        have hsk := skipSpace_length rest
        simp only [List.length_cons] at hf
        by_cases h1 : c = Char.ofNat 123
        · rw [if_pos h1, if_pos h1]
          by_cases hd : maxNestingDepth ≤ d
          · rw [if_pos hd, if_pos hd]
          · rw [if_neg hd, if_neg hd]
            cases hs : skipSpace rest with
            | nil => rfl
            | cons k r0 =>
              rw [hs] at hsk
              simp only
              rw [ihM (d + 1) (k :: r0) (by omega)]
        · rw [if_neg h1, if_neg h1]
          by_cases h2 : c = '['
          · rw [if_pos h2, if_pos h2]
            by_cases hd : maxNestingDepth ≤ d
            · rw [if_pos hd, if_pos hd]
            · rw [if_neg hd, if_neg hd]
              cases hs : skipSpace rest with
              | nil => rfl
              | cons k r0 =>
                rw [hs] at hsk
                simp only
                rw [ihE (d + 1) (k :: r0) (by simp only [List.length_cons] at hsk ⊢; omega)]
          · rw [if_neg h2, if_neg h2]
    · intro d cs hf
      unfold parseMembers
      cases cs with
      | nil => rfl
      | cons q r0 =>
        simp only
        simp only [List.length_cons] at hf
        by_cases hq : q = '"'
        · rw [if_pos hq, if_pos hq]
          cases hk : stringLiteral r0 with
          | none => rfl
          | some p =>
            obtain ⟨k, r1⟩ := p
            simp only
            have l1 := stringLiteral_length _ _ _ hk
            have l2 := skipSpace_length r1
            cases hs : skipSpace r1 with
            | nil => rfl
            | cons colon r2 =>
              rw [hs] at l2
              simp only
              by_cases hc : colon = ':'
              · rw [if_pos hc, if_pos hc]
                have l3 := skipSpace_length r2
                simp only [List.length_cons] at l2
                rw [ihV d (skipSpace r2) (by omega)]
                cases hv : parseValue g d (skipSpace r2) with
                | none => rfl
                | some pv =>
                  obtain ⟨v, r3⟩ := pv
                  simp only
                  have l4 := (parse_length g).1 _ _ _ _ hv
                  have l5 := skipSpace_length r3
                  cases hs3 : skipSpace r3 with
                  | nil => rfl
                  | cons sep r4 =>
                    rw [hs3] at l5
                    simp only
                    by_cases hsep : sep = ','
                    · rw [if_pos hsep, if_pos hsep]
                      have l6 := skipSpace_length r4
                      simp only [List.length_cons] at l5
                      rw [ihM d (skipSpace r4) (by omega)]
                    · rw [if_neg hsep, if_neg hsep]
              · rw [if_neg hc, if_neg hc]
        · rw [if_neg hq, if_neg hq]
    · intro d cs hf
      unfold parseElements
      rw [ihV d cs (by omega)]
      cases hv : parseValue g d cs with
      | none => rfl
      | some pv =>
        obtain ⟨v, r1⟩ := pv
        simp only
        have l1 := (parse_length g).1 _ _ _ _ hv
        have l2 := skipSpace_length r1
        cases hs : skipSpace r1 with
        | nil => rfl
        | cons sep r2 =>
          rw [hs] at l2
          simp only
          by_cases hsep : sep = ','
          · rw [if_pos hsep, if_pos hsep]
            have l3 := skipSpace_length r2
            simp only [List.length_cons] at l2
            rw [ihE d (skipSpace r2) (by omega)]
          · rw [if_neg hsep, if_neg hsep]

/-- Fuel beyond twice the length of the text does not change the result. -/
theorem parseValue_fuel (d : Nat) (cs : List Char) (m : Nat) (hm : 2 * cs.length + 1 ≤ m) :
    ∀ n, m ≤ n → parseValue n d cs = parseValue m d cs := by
  intro n hn
  obtain ⟨k, rfl⟩ : ∃ k, n = m + k := ⟨n - m, by omega⟩
  clear hn
  induction k with
  | zero => rfl
  | succ k ih =>
    rw [← ih]
    exact (parse_fuel_succ (m + k)).1 d cs (by omega)

/-- The fuel `parseJSON` gives is enough: with any larger amount the scan of
the text gives the same result. -/
theorem parseJSON_fuel (data : String) (n : Nat) (hn : 2 * data.length + 2 ≤ n) :
    parseValue n 0 (skipSpace data.data) =
      parseValue (2 * data.length + 2) 0 (skipSpace data.data) := by
  have hl := skipSpace_length data.data
  have hd : data.length = data.data.length := rfl
  exact parseValue_fuel 0 _ _ (by omega) n hn

/-- With fuel for the length of the text, one more unit of fuel does not change
what the string scanner returns. -/
theorem scanString_fuel_succ (fuel : Nat) :
    ∀ cs, cs.length + 1 ≤ fuel → scanString (fuel + 1) cs = scanString fuel cs := by
  induction fuel with
  | zero => intro cs h; omega
  | succ g ih =>
    intro cs hf
    unfold scanString
    cases cs with
    | nil => rfl
    | cons c rest =>
      simp only
      simp only [List.length_cons] at hf
      by_cases h1 : c = '"'
      · rw [if_pos h1, if_pos h1]
      · rw [if_neg h1, if_neg h1]
        by_cases h2 : c = '\\'
        · rw [if_pos h2, if_pos h2]
          cases he : scanEscape rest with
          | none => rfl
          | some p =>
            obtain ⟨x, r⟩ := p
            simp only
            have := scanEscape_length _ _ _ he
            rw [ih r (by omega)]
        · rw [if_neg h2, if_neg h2]
          by_cases h3 : c.toNat < 0x20
          · rw [if_pos h3, if_pos h3]
          · rw [if_neg h3, if_neg h3, ih rest (by omega)]

/-- The fuel `stringLiteral` gives is enough: any larger amount gives the same result. -/
theorem stringLiteral_fuel (cs : List Char) (n : Nat) (hn : cs.length + 1 ≤ n) :
    scanString n cs = stringLiteral cs := by
  obtain ⟨k, rfl⟩ : ∃ k, n = cs.length + 1 + k := ⟨n - (cs.length + 1), by omega⟩
  clear hn
  induction k with
  | zero => rfl
  | succ k ih =>
    rw [← ih]
    exact scanString_fuel_succ (cs.length + 1 + k) cs (by omega)

end GoApp
